import Mathlib

/-!
Verification of the QR / Google-Authenticator migration decoder of
`qr_extractor.py` (module-level functions `parse_varint`,
`parse_length_delimited`, `decode_google_authenticator_migration`,
`decode_otp_parameters`, and the `otpauth://` branch of
`QRExtractor.decode_qr_texts`).

Byte buffers are modelled as `List Nat` (each element a byte value),
Python's unbounded integers as `Nat`, and Python text as `String` /
`List Char`.  The decoding loops of the Python source are `while`
loops whose offset strictly increases on every iteration; they are
embedded with an explicit fuel argument (`data.length + 1` is always
sufficient, which is proved where needed via fuel-irrelevance lemmas).
-/

/-- Body of the `while offset < len(data)` loop of `parse_varint`,
recursing over the byte suffix `data[offset:]`.  Returns the decoded
value and the number of bytes consumed.  Mirrors
`result |= (byte & 0x7F) << shift` and the `(byte & 0x80) == 0` stop
test of the source. -/
def varintCore : List Nat → Nat → Nat → Nat × Nat
  | [], result, _ => (result, 0)
  | b :: rest, result, shift =>
    let result2 := result ||| ((b &&& 127) <<< shift)
    if b &&& 128 = 0 then
      (result2, 1)
    else
      let r := varintCore rest result2 (shift + 7)
      (r.1, r.2 + 1)

/-- `parse_varint(data, offset)` of the source: parse a base-128 varint
starting at `offset`; returns `(value, next_offset)`.  If `offset` is at
or past the end of the buffer the loop body never runs and
`(0, offset)` is returned. -/
def parse_varint (data : List Nat) (offset : Nat) : Nat × Nat :=
  let r := varintCore (data.drop offset) 0 0
  (r.1, offset + r.2)

/-- `parse_length_delimited(data, offset)` of the source: read a varint
length, then return the slice `data[offset:offset+length]` (clamped at
the end of the buffer, exactly like a Python slice) together with
`offset + length` (which may lie past the end of the buffer). -/
def parse_length_delimited (data : List Nat) (offset : Nat) : List Nat × Nat :=
  let r := parse_varint data offset
  ((data.drop r.2).take r.1, r.2 + r.1)

/-- One OTP account as accumulated by `decode_otp_parameters`: a Python
dict whose keys are set as fields are encountered.  A `none` field is an
absent key. -/
structure Account where
  secret : Option String := none
  name : Option String := none
  issuer : Option String := none
  algorithm : Option String := none
  digits : Option Nat := none
  type : Option String := none
  counter : Option Nat := none
  deriving DecidableEq, Repr

/-- Python truthiness of the account dict (`if account:`): the dict is
truthy iff at least one key has been set. -/
def Account.nonempty (a : Account) : Bool :=
  a.secret.isSome || a.name.isSome || a.issuer.isSome || a.algorithm.isSome ||
    a.digits.isSome || a.type.isSome || a.counter.isSome

/-- `algorithm_map = {0: 'SHA1', 1: 'SHA1', 2: 'SHA256', 3: 'SHA512'}`
with `.get(algorithm, 'SHA1')`. -/
def algorithm_map (n : Nat) : String :=
  if n = 0 then "SHA1"
  else if n = 1 then "SHA1"
  else if n = 2 then "SHA256"
  else if n = 3 then "SHA512"
  else "SHA1"

/-- `type_map = {0: 'HOTP', 1: 'TOTP', 2: 'TOTP'}` with
`.get(otp_type, 'TOTP')`. -/
def type_map (n : Nat) : String :=
  if n = 0 then "HOTP"
  else if n = 1 then "TOTP"
  else if n = 2 then "TOTP"
  else "TOTP"

/-- The eight bits of a byte, most significant first. -/
def byteBits (b : Nat) : List Nat :=
  [b / 128 % 2, b / 64 % 2, b / 32 % 2, b / 16 % 2,
   b / 8 % 2, b / 4 % 2, b / 2 % 2, b % 2]

/-- Group a bit stream into 5-bit values, padding the final incomplete
group with zero bits on the right (RFC 4648 base32). -/
def quints : List Nat → List Nat
  | [] => []
  | [a] => [a * 16]
  | [a, b] => [(a * 2 + b) * 8]
  | [a, b, c] => [((a * 2 + b) * 2 + c) * 4]
  | [a, b, c, d] => [(((a * 2 + b) * 2 + c) * 2 + d) * 2]
  | a :: b :: c :: d :: e :: rest =>
    ((((a * 2 + b) * 2 + c) * 2 + d) * 2 + e) :: quints rest

/-- The RFC 4648 base32 alphabet. -/
def b32char (n : Nat) : Char :=
  "ABCDEFGHIJKLMNOPQRSTUVWXYZ234567".data.getD n 'A'

/-- `base64.b32encode(bs).decode('utf-8')`: RFC 4648 base32 encoding of
a byte string, with '=' padding to a multiple of eight characters. -/
def b32encode (bs : List Nat) : String :=
  let cs := (quints (bs.flatMap byteBits)).map b32char
  ⟨cs ++ List.replicate ((8 - cs.length % 8) % 8) '='⟩

/-- Second-byte lower bound for a three- or four-byte UTF-8 lead byte
(CPython's DFA: E0 needs A0.., F0 needs 90..). -/
def utf8Lo2 (b : Nat) : Nat :=
  if b = 0xE0 then 0xA0 else if b = 0xF0 then 0x90 else 0x80

/-- Second-byte upper bound for a three- or four-byte UTF-8 lead byte
(ED stops at 9F to exclude surrogates, F4 at 8F to stay below U+110000). -/
def utf8Hi2 (b : Nat) : Nat :=
  if b = 0xED then 0x9F else if b = 0xF4 then 0x8F else 0xBF

/-- UTF-8 decoding of a byte string with an explicit error handler:
every maximal subpart of an ill-formed sequence is replaced by `repl`
(CPython's behavior, where `errors='ignore'` is `repl = []` and
`errors='replace'` is `repl = [U+FFFD]`).  The fuel argument only bounds
the recursion; any fuel at least the length of the byte list gives the
decoder's value (`utf8Core` always supplies enough). -/
def utf8CoreF (repl : List Char) : Nat → List Nat → List Char
  | 0, _ => []
  | _, [] => []
  | fuel + 1, b :: bs =>
    if b < 0x80 then Char.ofNat b :: utf8CoreF repl fuel bs
    else if b < 0xC2 then repl ++ utf8CoreF repl fuel bs
    else if b ≤ 0xDF then
      match bs with
      | [] => repl
      | c :: bs2 =>
        if 0x80 ≤ c ∧ c ≤ 0xBF then
          Char.ofNat ((b - 0xC0) * 64 + (c - 0x80)) :: utf8CoreF repl fuel bs2
        else repl ++ utf8CoreF repl fuel bs
    else if b ≤ 0xEF then
      match bs with
      | [] => repl
      | c :: bs2 =>
        if utf8Lo2 b ≤ c ∧ c ≤ utf8Hi2 b then
          match bs2 with
          | [] => repl
          | d :: bs3 =>
            if 0x80 ≤ d ∧ d ≤ 0xBF then
              Char.ofNat ((b - 0xE0) * 4096 + (c - 0x80) * 64 + (d - 0x80)) ::
                utf8CoreF repl fuel bs3
            else repl ++ utf8CoreF repl fuel bs2
        else repl ++ utf8CoreF repl fuel bs
    else if b ≤ 0xF4 then
      match bs with
      | [] => repl
      | c :: bs2 =>
        if utf8Lo2 b ≤ c ∧ c ≤ utf8Hi2 b then
          match bs2 with
          | [] => repl
          | d :: bs3 =>
            if 0x80 ≤ d ∧ d ≤ 0xBF then
              match bs3 with
              | [] => repl
              | e :: bs4 =>
                if 0x80 ≤ e ∧ e ≤ 0xBF then
                  Char.ofNat ((b - 0xF0) * 262144 + (c - 0x80) * 4096 +
                      (d - 0x80) * 64 + (e - 0x80)) :: utf8CoreF repl fuel bs4
                else repl ++ utf8CoreF repl fuel bs3
            else repl ++ utf8CoreF repl fuel bs2
        else repl ++ utf8CoreF repl fuel bs
    else repl ++ utf8CoreF repl fuel bs

/-- UTF-8 decode with error handler `repl`, with the fuel instantiated
sufficiently. -/
def utf8Core (repl : List Char) (bs : List Nat) : List Char :=
  utf8CoreF repl bs.length bs

/-- `bytes.decode('utf-8', errors='ignore')`: permissive UTF-8 decoding
that drops every maximal ill-formed subpart. -/
def utf8DecodeIgnore (bs : List Nat) : String :=
  ⟨utf8Core [] bs⟩

/-- Modelled from the spec: the spec's reading of the permissive decode
("invalid byte sequences replaced rather than failing"), i.e.
`errors='replace'`, substituting U+FFFD for every maximal ill-formed
subpart.  This definition is not the source's behavior; it exists to be
compared against `utf8DecodeIgnore`. -/
def utf8DecodeReplaceSpec (bs : List Nat) : String :=
  ⟨utf8Core [Char.ofNat 0xFFFD] bs⟩

/-- One iteration of the field-dispatch `while` loop of
`decode_otp_parameters`, after the field header has been read:
`off2` is the offset just past the header and `header` its value.
`Sum.inl` is the `break` of the unknown-wire-type branch (loop result),
`Sum.inr (o, a)` means continue the loop at offset `o` with account `a`.
The `if`/`else if` chain mirrors the source's dispatch verbatim. -/
def otpDispatch (data : List Nat) (off2 header : Nat) (account : Account) :
    (Account × Nat × Bool) ⊕ (Nat × Account) :=
  if header >>> 3 = 1 ∧ header &&& 7 = 2 then
    Sum.inr ((parse_length_delimited data off2).2,
      { account with secret := some (b32encode (parse_length_delimited data off2).1) })
  else if header >>> 3 = 2 ∧ header &&& 7 = 2 then
    Sum.inr ((parse_length_delimited data off2).2,
      { account with name := some (utf8DecodeIgnore (parse_length_delimited data off2).1) })
  else if header >>> 3 = 3 ∧ header &&& 7 = 2 then
    Sum.inr ((parse_length_delimited data off2).2,
      { account with issuer := some (utf8DecodeIgnore (parse_length_delimited data off2).1) })
  else if header >>> 3 = 4 ∧ header &&& 7 = 0 then
    Sum.inr ((parse_varint data off2).2,
      { account with algorithm := some (algorithm_map (parse_varint data off2).1) })
  else if header >>> 3 = 5 ∧ header &&& 7 = 0 then
    Sum.inr ((parse_varint data off2).2,
      { account with digits := some (parse_varint data off2).1 })
  else if header >>> 3 = 6 ∧ header &&& 7 = 0 then
    Sum.inr ((parse_varint data off2).2,
      { account with type := some (type_map (parse_varint data off2).1) })
  else if header >>> 3 = 7 ∧ header &&& 7 = 0 then
    Sum.inr ((parse_varint data off2).2,
      { account with counter := some (parse_varint data off2).1 })
  else if header &&& 7 = 0 then
    Sum.inr ((parse_varint data off2).2, account)
  else if header &&& 7 = 2 then
    Sum.inr ((parse_length_delimited data off2).2, account)
  else
    Sum.inl (account, off2, true)

/-- The `while offset < len(data)` loop of `decode_otp_parameters`, with
explicit fuel.  Each iteration reads the field header with
`parse_varint` and dispatches via `otpDispatch`.  Returns the
accumulated account, the final offset, and whether the loop exited
through the `break` of the unknown-wire-type branch. -/
def decodeOtpLoop : Nat → List Nat → Nat → Account → Account × Nat × Bool
  | 0, _, offset, account => (account, offset, false)
  | fuel + 1, data, offset, account =>
    if offset < data.length then
      match otpDispatch data (parse_varint data offset).2 (parse_varint data offset).1 account with
      | Sum.inl r => r
      | Sum.inr p => decodeOtpLoop fuel data p.1 p.2
    else
      (account, offset, false)

/-- `decode_otp_parameters` together with its final offset and
early-stop flag. -/
def decodeOtpFull (data : List Nat) : Account × Nat × Bool :=
  decodeOtpLoop (data.length + 1) data 0 {}

/-- `decode_otp_parameters(data)` of the source: decode one account
sub-message. -/
def decode_otp_parameters (data : List Nat) : Account :=
  (decodeOtpFull data).1

/-- One iteration of the field-dispatch `while` loop of
`decode_google_authenticator_migration`, after the field header has been
read.  `Sum.inl` is the `break` of the unknown-wire-type branch,
`Sum.inr (o, accs)` means continue at offset `o` with account list
`accs`.  The four version/batchSize/batchIndex/batchId branches of the
source (fields 2-5, wire type 0) each consume one varint and discard
it; a field-1 length-delimited sub-message is decoded with
`decode_otp_parameters` and appended only if the account dict is truthy
(`if account:`). -/
def migDispatch (data : List Nat) (off2 header : Nat) (accounts : List Account) :
    (List Account × Nat × Bool) ⊕ (Nat × List Account) :=
  if header >>> 3 = 1 ∧ header &&& 7 = 2 then
    if (decode_otp_parameters (parse_length_delimited data off2).1).nonempty then
      Sum.inr ((parse_length_delimited data off2).2,
        accounts ++ [decode_otp_parameters (parse_length_delimited data off2).1])
    else
      Sum.inr ((parse_length_delimited data off2).2, accounts)
  else if header >>> 3 = 2 ∧ header &&& 7 = 0 then
    Sum.inr ((parse_varint data off2).2, accounts)
  else if header >>> 3 = 3 ∧ header &&& 7 = 0 then
    Sum.inr ((parse_varint data off2).2, accounts)
  else if header >>> 3 = 4 ∧ header &&& 7 = 0 then
    Sum.inr ((parse_varint data off2).2, accounts)
  else if header >>> 3 = 5 ∧ header &&& 7 = 0 then
    Sum.inr ((parse_varint data off2).2, accounts)
  else if header &&& 7 = 0 then
    Sum.inr ((parse_varint data off2).2, accounts)
  else if header &&& 7 = 2 then
    Sum.inr ((parse_length_delimited data off2).2, accounts)
  else
    Sum.inl (accounts, off2, true)

/-- The `while offset < len(data)` loop of
`decode_google_authenticator_migration`, with explicit fuel.  Returns
the accumulated accounts, the final offset, and whether the loop exited
through the `break` of the unknown-wire-type branch. -/
def decodeMigrationLoop : Nat → List Nat → Nat → List Account → List Account × Nat × Bool
  | 0, _, offset, accounts => (accounts, offset, false)
  | fuel + 1, data, offset, accounts =>
    if offset < data.length then
      match migDispatch data (parse_varint data offset).2 (parse_varint data offset).1 accounts with
      | Sum.inl r => r
      | Sum.inr p => decodeMigrationLoop fuel data p.1 p.2
    else
      (accounts, offset, false)

/-- `decode_google_authenticator_migration` together with its final
offset and early-stop flag. -/
def decodeMigrationFull (data : List Nat) : List Account × Nat × Bool :=
  decodeMigrationLoop (data.length + 1) data 0 []

/-- `decode_google_authenticator_migration(data)` of the source. -/
def decode_google_authenticator_migration (data : List Nat) : List Account :=
  (decodeMigrationFull data).1

/-- One entry of the `decoded_data` list that `decode_qr_texts` builds
for a migration payload (the dict literal at the `for account in
accounts` loop).  There is no field carrying the account's HOTP/TOTP
type: `format` is the literal `'TOTP'`. -/
structure MigrationRecord where
  type : String
  format : String
  name : String
  issuer : String
  secret : String
  algorithm : String
  digits : Nat
  period : Nat
  counter : Nat
  original_text : String
  deriving DecidableEq, Repr

/-- The dict appended by `decode_qr_texts` for one decoded migration
account: `'format': 'TOTP'` and `'period': 30` are hardcoded, the other
values come from `account.get(...)` with the listed defaults. -/
def migrationOutRecord (account : Account) (text : String) : MigrationRecord :=
  { type := "google_authenticator_migration"
    format := "TOTP"
    name := account.name.getD ""
    issuer := account.issuer.getD ""
    secret := account.secret.getD ""
    algorithm := account.algorithm.getD "SHA1"
    digits := account.digits.getD 6
    period := 30
    counter := account.counter.getD 0
    original_text := text }

/-- Modelled from the spec: the canonical base-128 varint encoding
(little-endian 7-bit groups, continuation bit set on every byte but the
last).  The source contains no encoder; the spec's round-trip property
quantifies over `encode(v)`. -/
def encodeVarint (v : Nat) : List Nat :=
  if h : v < 128 then [v]
  else (v % 128 + 128) :: encodeVarint (v / 128)
  termination_by v
  decreasing_by exact Nat.div_lt_self (by omega) (by omega)

example : parse_varint [0x80] 0 = (0, 1) := by decide
example : parse_varint [0x00] 0 = (0, 1) := by decide
example : parse_varint [0xAC, 0x02] 0 = (300, 2) := by decide
example : parse_length_delimited [0x02, 0x61] 0 = ([0x61], 3) := by decide
example : decode_google_authenticator_migration [0x0A, 0x00] = [] := by decide
example : decode_google_authenticator_migration [0x0A, 0x05, 0x28, 0x07] =
    [{ digits := some 7 }] := by decide
example : decode_otp_parameters [0x30, 0x00] = { type := some "HOTP" } := by decide
example : decode_otp_parameters [0x12, 0x02, 0xFF, 0x61] = { name := some "a" } := by
  decide
example : utf8DecodeReplaceSpec [0xFF, 0x61] = ⟨[Char.ofNat 0xFFFD, 'a']⟩ := by decide
example : decodeMigrationFull [0x0D, 0x00] = ([], 1, true) := by decide
example : b32encode [0x00, 0x01, 0x02, 0x03] = "AAAQEAY=" := by decide

theorem varintCore_snd_le (bs : List Nat) : ∀ r s, (varintCore bs r s).2 ≤ bs.length := by
  induction bs with
  | nil => intro r s; simp [varintCore]
  | cons b rest ih =>
    intro r s
    simp only [varintCore, List.length_cons]
    split
    · simp
    · simpa using Nat.succ_le_succ (ih _ _)

theorem varintCore_snd_pos (b : Nat) (bs : List Nat) (r s : Nat) :
    1 ≤ (varintCore (b :: bs) r s).2 := by
  simp only [varintCore]
  split
  · simp
  · simp

theorem parse_varint_ge (data : List Nat) (offset : Nat) :
    offset ≤ (parse_varint data offset).2 := by
  simp [parse_varint]

theorem parse_varint_lt (data : List Nat) (offset : Nat) (h : offset < data.length) :
    offset < (parse_varint data offset).2 := by
  have hd : data.drop offset ≠ [] := by
    simp [List.drop_eq_nil_iff]
    omega
  simp only [parse_varint]
  match hm : data.drop offset with
  | [] => exact absurd hm hd
  | b :: rest =>
    have := varintCore_snd_pos b rest 0 0
    omega

theorem parse_varint_le (data : List Nat) (offset : Nat) (h : offset ≤ data.length) :
    (parse_varint data offset).2 ≤ data.length := by
  have := varintCore_snd_le (data.drop offset) 0 0
  simp only [List.length_drop] at this
  simp only [parse_varint]
  omega

theorem parse_ld_ge (data : List Nat) (offset : Nat) :
    offset ≤ (parse_length_delimited data offset).2 := by
  have := parse_varint_ge data offset
  simp only [parse_length_delimited]
  omega

theorem drop_congr_add {data data' : List Nat} {off off' : Nat}
    (h : data.drop off = data'.drop off') (k : Nat) :
    data.drop (off + k) = data'.drop (off' + k) := by
  rw [← List.drop_drop, h, List.drop_drop]

theorem parse_varint_shift {data data' : List Nat} {off off' : Nat}
    (h : data.drop off = data'.drop off') :
    ∃ v n, (parse_varint data off).1 = v ∧ (parse_varint data off).2 = off + n ∧
      (parse_varint data' off').1 = v ∧ (parse_varint data' off').2 = off' + n := by
  refine ⟨(varintCore (data.drop off) 0 0).1, (varintCore (data.drop off) 0 0).2,
    rfl, rfl, ?_, ?_⟩ <;> simp [parse_varint, h]

theorem parse_ld_shift {data data' : List Nat} {off off' : Nat}
    (h : data.drop off = data'.drop off') :
    ∃ sl n, (parse_length_delimited data off).1 = sl ∧
      (parse_length_delimited data off).2 = off + n ∧
      (parse_length_delimited data' off').1 = sl ∧
      (parse_length_delimited data' off').2 = off' + n ∧
      data.drop (off + n) = data'.drop (off' + n) := by
  obtain ⟨v, m, h1, h2, h3, h4⟩ := parse_varint_shift h
  refine ⟨(data.drop (off + m)).take v, m + v, ?_, ?_, ?_, ?_, ?_⟩
  · simp [parse_length_delimited, h1, h2]
  · simp [parse_length_delimited, h1, h2, Nat.add_assoc]
  · simp [parse_length_delimited, h3, h4, drop_congr_add h m]
  · simp [parse_length_delimited, h3, h4, Nat.add_assoc]
  · exact drop_congr_add h (m + v)

theorem lor_shiftLeft_eq_add {a : Nat} (b n : Nat) (h : a < 2 ^ n) :
    a ||| (b <<< n) = a + b <<< n := by
  apply Nat.eq_of_testBit_eq
  intro i
  rw [Nat.testBit_lor, Nat.testBit_shiftLeft, Nat.shiftLeft_eq]
  rcases Nat.lt_or_ge i n with hin | hin
  · have h1 : decide (i ≥ n) = false := by simp; omega
    rw [h1, Bool.false_and, Bool.or_false]
    rw [Nat.testBit_to_div_mod, Nat.testBit_to_div_mod]
    have hsplit : b * 2 ^ n = b * 2 ^ (n - i) * 2 ^ i := by
      rw [mul_assoc, ← pow_add, Nat.sub_add_cancel (le_of_lt hin)]
    rw [hsplit, Nat.add_mul_div_right _ _ (Nat.pos_pow_of_pos i (by norm_num))]
    have heven : (a / 2 ^ i + b * 2 ^ (n - i)) % 2 = a / 2 ^ i % 2 := by
      have h2 : (2 : Nat) ∣ 2 ^ (n - i) := dvd_pow_self 2 (by omega)
      obtain ⟨k, hk⟩ := h2
      have : b * 2 ^ (n - i) = b * k * 2 := by rw [hk]; ring
      rw [this, Nat.add_mul_mod_self_right]
    rw [heven]
  · have h0 : a.testBit i = false :=
      Nat.testBit_eq_false_of_lt (lt_of_lt_of_le h (Nat.pow_le_pow_right (by norm_num) hin))
    have h1 : decide (i ≥ n) = true := by simp [hin]
    rw [h0, h1, Bool.true_and, Bool.false_or]
    rw [Nat.testBit_to_div_mod, Nat.testBit_to_div_mod]
    have hsplit : (2 : Nat) ^ i = 2 ^ n * 2 ^ (i - n) := by
      rw [← pow_add]
      congr 1
      omega
    rw [hsplit, ← Nat.div_div_eq_div_mul,
      Nat.add_mul_div_right _ _ (Nat.pos_pow_of_pos n (by norm_num)),
      Nat.div_eq_of_lt h, Nat.zero_add]

theorem land127_of_lt {a : Nat} (h : a < 128) : a &&& 127 = a := by
  have : (127 : Nat) = 2 ^ 7 - 1 := by norm_num
  rw [this, Nat.and_pow_two_sub_one_eq_mod]
  exact Nat.mod_eq_of_lt (by norm_num at h ⊢; omega)

theorem add128_land127 {a : Nat} (h : a < 128) : (a + 128) &&& 127 = a := by
  have : (127 : Nat) = 2 ^ 7 - 1 := by norm_num
  rw [this, Nat.and_pow_two_sub_one_eq_mod]
  have : (a + 128) % 2 ^ 7 = a % 2 ^ 7 := by
    have : (2 : Nat) ^ 7 = 128 := by norm_num
    rw [this]
    simp [Nat.add_mod_right]
  rw [this]
  exact Nat.mod_eq_of_lt (by norm_num; omega)

theorem land128_of_lt {a : Nat} (h : a < 128) : a &&& 128 = 0 := by
  have h128 : (128 : Nat) = 2 ^ 7 := by norm_num
  rw [h128, Nat.and_two_pow]
  have : a.testBit 7 = false := Nat.testBit_eq_false_of_lt (by norm_num; omega)
  rw [this]
  simp

theorem add128_land128 {a : Nat} (h : a < 128) : (a + 128) &&& 128 = 128 := by
  have h128 : (128 : Nat) = 2 ^ 7 := by norm_num
  nth_rewrite 2 [h128]
  rw [Nat.and_two_pow]
  have ht : (a + 128).testBit 7 = true := by
    rw [Nat.testBit_to_div_mod]
    have hdiv : (a + 128) / 2 ^ 7 = 1 := by
      have : (2 : Nat) ^ 7 = 128 := by norm_num
      rw [this]
      omega
    rw [hdiv]
    decide
  rw [ht]
  norm_num

theorem varintCore_encode (v : Nat) : ∀ (rest : List Nat) (result shift : Nat),
    varintCore (encodeVarint v ++ rest) result shift =
      (result ||| (v <<< shift), (encodeVarint v).length) := by
  induction v using Nat.strong_induction_on with
  | _ v ih =>
    intro rest result shift
    by_cases h : v < 128
    · have hlist : encodeVarint v ++ rest = v :: rest := by
        rw [encodeVarint, dif_pos h]
        rfl
      have hlen : (encodeVarint v).length = 1 := by
        rw [encodeVarint, dif_pos h]
        rfl
      rw [hlist, hlen]
      simp only [varintCore]
      rw [land127_of_lt h, land128_of_lt h]
      simp
    · have hmod : v % 128 < 128 := Nat.mod_lt _ (by norm_num)
      have hlist : encodeVarint v ++ rest =
          (v % 128 + 128) :: (encodeVarint (v / 128) ++ rest) := by
        rw [encodeVarint, dif_neg h]
        rfl
      have hlen : (encodeVarint v).length = (encodeVarint (v / 128)).length + 1 := by
        rw [encodeVarint, dif_neg h]
        rfl
      rw [hlist, hlen]
      simp only [varintCore]
      rw [add128_land127 hmod, add128_land128 hmod]
      simp only [if_neg (by norm_num : ¬(128 : Nat) = 0)]
      rw [ih (v / 128) (Nat.div_lt_self (by omega) (by norm_num)) rest _ (shift + 7)]
      have hinner : (v % 128) <<< shift ||| (v / 128) <<< (shift + 7) = v <<< shift := by
        have hlt : (v % 128) <<< shift < 2 ^ (shift + 7) := by
          rw [Nat.shiftLeft_eq, pow_add]
          have : (2 : Nat) ^ 7 = 128 := by norm_num
          rw [this]
          calc v % 128 * 2 ^ shift < 128 * 2 ^ shift :=
                mul_lt_mul_of_pos_right hmod (Nat.pos_pow_of_pos shift (by norm_num))
            _ = 2 ^ shift * 128 := by ring
        rw [lor_shiftLeft_eq_add _ _ hlt]
        rw [Nat.shiftLeft_eq, Nat.shiftLeft_eq, Nat.shiftLeft_eq, pow_add]
        have h2 : (2 : Nat) ^ 7 = 128 := by norm_num
        rw [h2]
        have hv : v % 128 + 128 * (v / 128) = v := Nat.mod_add_div v 128
        calc v % 128 * 2 ^ shift + v / 128 * (2 ^ shift * 128)
            = (v % 128 + 128 * (v / 128)) * 2 ^ shift := by ring
          _ = v * 2 ^ shift := by rw [hv]
      rw [Nat.lor_assoc, hinner]

theorem parse_varint_encode (v : Nat) (rest : List Nat) :
    parse_varint (encodeVarint v ++ rest) 0 = (v, (encodeVarint v).length) := by
  simp only [parse_varint, List.drop_zero]
  rw [varintCore_encode]
  simp

theorem parse_varint_encode_at (pre : List Nat) (v : Nat) (rest : List Nat) :
    parse_varint (pre ++ encodeVarint v ++ rest) pre.length =
      (v, pre.length + (encodeVarint v).length) := by
  simp only [parse_varint]
  rw [List.append_assoc, List.drop_left, varintCore_encode]
  simp

theorem otpDispatch_inr_ge {data : List Nat} {off2 header : Nat} {account : Account}
    {p : Nat × Account} (h : otpDispatch data off2 header account = Sum.inr p) :
    off2 ≤ p.1 := by
  have hv := parse_varint_ge data off2
  have hl := parse_ld_ge data off2
  simp only [otpDispatch] at h
  split_ifs at h <;>
    first
      | (injection h with h2; subst h2; simpa using hl)
      | (injection h with h2; subst h2; simpa using hv)
      | exact absurd h (by simp)

theorem otpDispatch_inl_eq {data : List Nat} {off2 header : Nat} {account : Account}
    {r : Account × Nat × Bool} (h : otpDispatch data off2 header account = Sum.inl r) :
    r = (account, off2, true) := by
  simp only [otpDispatch] at h
  split_ifs at h <;>
    first
      | (injection h with h2; exact h2.symm)
      | exact absurd h (by simp)

theorem migDispatch_inr_ge {data : List Nat} {off2 header : Nat} {accounts : List Account}
    {p : Nat × List Account} (h : migDispatch data off2 header accounts = Sum.inr p) :
    off2 ≤ p.1 := by
  have hv := parse_varint_ge data off2
  have hl := parse_ld_ge data off2
  simp only [migDispatch] at h
  split_ifs at h <;>
    first
      | (injection h with h2; subst h2; simpa using hl)
      | (injection h with h2; subst h2; simpa using hv)
      | exact absurd h (by simp)

theorem migDispatch_inl_eq {data : List Nat} {off2 header : Nat} {accounts : List Account}
    {r : List Account × Nat × Bool} (h : migDispatch data off2 header accounts = Sum.inl r) :
    r = (accounts, off2, true) := by
  simp only [migDispatch] at h
  split_ifs at h <;>
    first
      | (injection h with h2; exact h2.symm)
      | exact absurd h (by simp)

set_option maxHeartbeats 1000000 in
theorem otpDispatch_shift {data data' : List Nat} {off2 off2' : Nat}
    (hd : data.drop off2 = data'.drop off2') (header : Nat) (account : Account) :
    (otpDispatch data off2 header account = Sum.inl (account, off2, true) ∧
      otpDispatch data' off2' header account = Sum.inl (account, off2', true)) ∨
    (∃ d a2, otpDispatch data off2 header account = Sum.inr (off2 + d, a2) ∧
      otpDispatch data' off2' header account = Sum.inr (off2' + d, a2)) := by
  obtain ⟨sl, k, e1, e2, e3, e4, hd2⟩ := parse_ld_shift hd
  obtain ⟨w, m, f1, f2, f3, f4⟩ := parse_varint_shift hd
  unfold otpDispatch
  rw [e1, e2, e3, e4, f1, f2, f3, f4]
  by_cases c1 : header >>> 3 = 1 ∧ header &&& 7 = 2
  · rw [if_pos c1, if_pos c1]
    right
    exact ⟨k, _, rfl, rfl⟩
  rw [if_neg c1, if_neg c1]
  by_cases c2 : header >>> 3 = 2 ∧ header &&& 7 = 2
  · rw [if_pos c2, if_pos c2]
    right
    exact ⟨k, _, rfl, rfl⟩
  rw [if_neg c2, if_neg c2]
  by_cases c3 : header >>> 3 = 3 ∧ header &&& 7 = 2
  · rw [if_pos c3, if_pos c3]
    right
    exact ⟨k, _, rfl, rfl⟩
  rw [if_neg c3, if_neg c3]
  by_cases c4 : header >>> 3 = 4 ∧ header &&& 7 = 0
  · rw [if_pos c4, if_pos c4]
    right
    exact ⟨m, _, rfl, rfl⟩
  rw [if_neg c4, if_neg c4]
  by_cases c5 : header >>> 3 = 5 ∧ header &&& 7 = 0
  · rw [if_pos c5, if_pos c5]
    right
    exact ⟨m, _, rfl, rfl⟩
  rw [if_neg c5, if_neg c5]
  by_cases c6 : header >>> 3 = 6 ∧ header &&& 7 = 0
  · rw [if_pos c6, if_pos c6]
    right
    exact ⟨m, _, rfl, rfl⟩
  rw [if_neg c6, if_neg c6]
  by_cases c7 : header >>> 3 = 7 ∧ header &&& 7 = 0
  · rw [if_pos c7, if_pos c7]
    right
    exact ⟨m, _, rfl, rfl⟩
  rw [if_neg c7, if_neg c7]
  by_cases c8 : header &&& 7 = 0
  · rw [if_pos c8, if_pos c8]
    right
    exact ⟨m, _, rfl, rfl⟩
  rw [if_neg c8, if_neg c8]
  by_cases c9 : header &&& 7 = 2
  · rw [if_pos c9, if_pos c9]
    right
    exact ⟨k, _, rfl, rfl⟩
  rw [if_neg c9, if_neg c9]
  left
  exact ⟨rfl, rfl⟩

set_option maxHeartbeats 1000000 in
theorem migDispatch_shift {data data' : List Nat} {off2 off2' : Nat}
    (hd : data.drop off2 = data'.drop off2') (header : Nat) (accounts : List Account) :
    (migDispatch data off2 header accounts = Sum.inl (accounts, off2, true) ∧
      migDispatch data' off2' header accounts = Sum.inl (accounts, off2', true)) ∨
    (∃ d a2, migDispatch data off2 header accounts = Sum.inr (off2 + d, a2) ∧
      migDispatch data' off2' header accounts = Sum.inr (off2' + d, a2)) := by
  obtain ⟨sl, k, e1, e2, e3, e4, hd2⟩ := parse_ld_shift hd
  obtain ⟨w, m, f1, f2, f3, f4⟩ := parse_varint_shift hd
  unfold migDispatch
  rw [e1, e2, e3, e4, f2, f4]
  by_cases c1 : header >>> 3 = 1 ∧ header &&& 7 = 2
  · rw [if_pos c1, if_pos c1]
    by_cases cne : (decode_otp_parameters sl).nonempty = true
    · rw [if_pos cne, if_pos cne]
      right
      exact ⟨k, _, rfl, rfl⟩
    · rw [if_neg cne, if_neg cne]
      right
      exact ⟨k, _, rfl, rfl⟩
  rw [if_neg c1, if_neg c1]
  by_cases c2 : header >>> 3 = 2 ∧ header &&& 7 = 0
  · rw [if_pos c2, if_pos c2]
    right
    exact ⟨m, _, rfl, rfl⟩
  rw [if_neg c2, if_neg c2]
  by_cases c3 : header >>> 3 = 3 ∧ header &&& 7 = 0
  · rw [if_pos c3, if_pos c3]
    right
    exact ⟨m, _, rfl, rfl⟩
  rw [if_neg c3, if_neg c3]
  by_cases c4 : header >>> 3 = 4 ∧ header &&& 7 = 0
  · rw [if_pos c4, if_pos c4]
    right
    exact ⟨m, _, rfl, rfl⟩
  rw [if_neg c4, if_neg c4]
  by_cases c5 : header >>> 3 = 5 ∧ header &&& 7 = 0
  · rw [if_pos c5, if_pos c5]
    right
    exact ⟨m, _, rfl, rfl⟩
  rw [if_neg c5, if_neg c5]
  by_cases c8 : header &&& 7 = 0
  · rw [if_pos c8, if_pos c8]
    right
    exact ⟨m, _, rfl, rfl⟩
  rw [if_neg c8, if_neg c8]
  by_cases c9 : header &&& 7 = 2
  · rw [if_pos c9, if_pos c9]
    right
    exact ⟨k, _, rfl, rfl⟩
  rw [if_neg c9, if_neg c9]
  left
  exact ⟨rfl, rfl⟩

theorem decodeOtpLoop_stop (fuel : Nat) (data : List Nat) (off : Nat)
    (account : Account) (h : data.length ≤ off) :
    decodeOtpLoop fuel data off account = (account, off, false) := by
  cases fuel with
  | zero => rfl
  | succ f => simp [decodeOtpLoop, Nat.not_lt.mpr h]

theorem decodeMigrationLoop_stop (fuel : Nat) (data : List Nat) (off : Nat)
    (accs : List Account) (h : data.length ≤ off) :
    decodeMigrationLoop fuel data off accs = (accs, off, false) := by
  cases fuel with
  | zero => rfl
  | succ f => simp [decodeMigrationLoop, Nat.not_lt.mpr h]

theorem decodeOtpLoop_fuel : ∀ f1 f2 data off account,
    data.length - off < f1 → data.length - off < f2 →
    decodeOtpLoop f1 data off account = decodeOtpLoop f2 data off account := by
  intro f1
  induction f1 with
  | zero => intro f2 data off account h1 h2; omega
  | succ f ih =>
    intro f2 data off account h1 h2
    match f2 with
    | 0 => omega
    | g + 1 =>
      by_cases hg : off < data.length
      · have hlt : off < (parse_varint data off).2 := parse_varint_lt data off hg
        simp only [decodeOtpLoop, if_pos hg]
        rcases hstep : otpDispatch data (parse_varint data off).2 (parse_varint data off).1
            account with r | p
        · rfl
        · have hge := otpDispatch_inr_ge hstep
          exact ih _ _ _ _ (by omega) (by omega)
      · rw [decodeOtpLoop_stop _ _ _ _ (by omega), decodeOtpLoop_stop _ _ _ _ (by omega)]

theorem decodeMigrationLoop_fuel : ∀ f1 f2 data off accs,
    data.length - off < f1 → data.length - off < f2 →
    decodeMigrationLoop f1 data off accs = decodeMigrationLoop f2 data off accs := by
  intro f1
  induction f1 with
  | zero => intro f2 data off accs h1 h2; omega
  | succ f ih =>
    intro f2 data off accs h1 h2
    match f2 with
    | 0 => omega
    | g + 1 =>
      by_cases hg : off < data.length
      · have hlt : off < (parse_varint data off).2 := parse_varint_lt data off hg
        simp only [decodeMigrationLoop, if_pos hg]
        rcases hstep : migDispatch data (parse_varint data off).2 (parse_varint data off).1
            accs with r | p
        · rfl
        · have hge := migDispatch_inr_ge hstep
          exact ih _ _ _ _ (by omega) (by omega)
      · rw [decodeMigrationLoop_stop _ _ _ _ (by omega),
          decodeMigrationLoop_stop _ _ _ _ (by omega)]

theorem decodeOtpLoop_end : ∀ fuel data off account, data.length - off < fuel →
    data.length ≤ (decodeOtpLoop fuel data off account).2.1 ∨
      (decodeOtpLoop fuel data off account).2.2 = true := by
  intro fuel
  induction fuel with
  | zero => intro data off account h; omega
  | succ f ih =>
    intro data off account h
    by_cases hg : off < data.length
    · have hlt : off < (parse_varint data off).2 := parse_varint_lt data off hg
      simp only [decodeOtpLoop, if_pos hg]
      rcases hstep : otpDispatch data (parse_varint data off).2 (parse_varint data off).1
          account with r | p
      · have := otpDispatch_inl_eq hstep
        subst this
        simp
      · have hge := otpDispatch_inr_ge hstep
        exact ih _ _ _ (by omega)
    · rw [decodeOtpLoop_stop _ _ _ _ (by omega)]
      left
      simp
      omega

theorem decodeMigrationLoop_end : ∀ fuel data off accs, data.length - off < fuel →
    data.length ≤ (decodeMigrationLoop fuel data off accs).2.1 ∨
      (decodeMigrationLoop fuel data off accs).2.2 = true := by
  intro fuel
  induction fuel with
  | zero => intro data off accs h; omega
  | succ f ih =>
    intro data off accs h
    by_cases hg : off < data.length
    · have hlt : off < (parse_varint data off).2 := parse_varint_lt data off hg
      simp only [decodeMigrationLoop, if_pos hg]
      rcases hstep : migDispatch data (parse_varint data off).2 (parse_varint data off).1
          accs with r | p
      · have := migDispatch_inl_eq hstep
        subst this
        simp
      · have hge := migDispatch_inr_ge hstep
        exact ih _ _ _ (by omega)
    · rw [decodeMigrationLoop_stop _ _ _ _ (by omega)]
      left
      simp
      omega

theorem decodeOtpLoop_shift : ∀ fuel (data : List Nat) off data' off' account,
    data.drop off = data'.drop off' →
    ∃ a2 d b, decodeOtpLoop fuel data off account = (a2, off + d, b) ∧
      decodeOtpLoop fuel data' off' account = (a2, off' + d, b) := by
  intro fuel
  induction fuel with
  | zero =>
    intro data off data' off' account h
    exact ⟨account, 0, false, rfl, rfl⟩
  | succ f ih =>
    intro data off data' off' account h
    by_cases hg : off < data.length
    · have hg' : off' < data'.length := by
        have h1 : ¬data.drop off = [] := by
          rw [List.drop_eq_nil_iff]
          omega
        rw [h, List.drop_eq_nil_iff] at h1
        omega
      obtain ⟨v, n, g1, g2, g3, g4⟩ := parse_varint_shift h
      simp only [decodeOtpLoop, if_pos hg, if_pos hg']
      rw [g1, g2, g3, g4]
      rcases otpDispatch_shift (drop_congr_add h n) v account with ⟨s1, s2⟩ | ⟨d, a2, s1, s2⟩
      · rw [s1, s2]
        exact ⟨account, n, true, rfl, rfl⟩
      · rw [s1, s2]
        obtain ⟨A, D, B, r1, r2⟩ := ih data (off + n + d) data' (off' + n + d) a2
          (by
            have h2 := drop_congr_add h (n + d)
            rwa [← Nat.add_assoc, ← Nat.add_assoc] at h2)
        refine ⟨A, n + d + D, B, ?_, ?_⟩
        · show decodeOtpLoop f data (off + n + d) a2 = _
          rw [r1]
          have heq : off + n + d + D = off + (n + d + D) := by omega
          rw [heq]
        · show decodeOtpLoop f data' (off' + n + d) a2 = _
          rw [r2]
          have heq : off' + n + d + D = off' + (n + d + D) := by omega
          rw [heq]
    · have hg' : ¬off' < data'.length := by
        have h1 : data.drop off = [] := by
          rw [List.drop_eq_nil_iff]
          omega
        rw [h, List.drop_eq_nil_iff] at h1
        omega
      rw [decodeOtpLoop_stop _ _ _ _ (by omega), decodeOtpLoop_stop _ _ _ _ (by omega)]
      exact ⟨account, 0, false, rfl, rfl⟩

theorem decodeMigrationLoop_shift : ∀ fuel (data : List Nat) off data' off' accs,
    data.drop off = data'.drop off' →
    ∃ A d b, decodeMigrationLoop fuel data off accs = (A, off + d, b) ∧
      decodeMigrationLoop fuel data' off' accs = (A, off' + d, b) := by
  intro fuel
  induction fuel with
  | zero =>
    intro data off data' off' accs h
    exact ⟨accs, 0, false, rfl, rfl⟩
  | succ f ih =>
    intro data off data' off' accs h
    by_cases hg : off < data.length
    · have hg' : off' < data'.length := by
        have h1 : ¬data.drop off = [] := by
          rw [List.drop_eq_nil_iff]
          omega
        rw [h, List.drop_eq_nil_iff] at h1
        omega
      obtain ⟨v, n, g1, g2, g3, g4⟩ := parse_varint_shift h
      simp only [decodeMigrationLoop, if_pos hg, if_pos hg']
      rw [g1, g2, g3, g4]
      rcases migDispatch_shift (drop_congr_add h n) v accs with ⟨s1, s2⟩ | ⟨d, a2, s1, s2⟩
      · rw [s1, s2]
        exact ⟨accs, n, true, rfl, rfl⟩
      · rw [s1, s2]
        obtain ⟨A, D, B, r1, r2⟩ := ih data (off + n + d) data' (off' + n + d) a2
          (by
            have h2 := drop_congr_add h (n + d)
            rwa [← Nat.add_assoc, ← Nat.add_assoc] at h2)
        refine ⟨A, n + d + D, B, ?_, ?_⟩
        · show decodeMigrationLoop f data (off + n + d) a2 = _
          rw [r1]
          have heq : off + n + d + D = off + (n + d + D) := by omega
          rw [heq]
        · show decodeMigrationLoop f data' (off' + n + d) a2 = _
          rw [r2]
          have heq : off' + n + d + D = off' + (n + d + D) := by omega
          rw [heq]
    · have hg' : ¬off' < data'.length := by
        have h1 : data.drop off = [] := by
          rw [List.drop_eq_nil_iff]
          omega
        rw [h, List.drop_eq_nil_iff] at h1
        omega
      rw [decodeMigrationLoop_stop _ _ _ _ (by omega),
        decodeMigrationLoop_stop _ _ _ _ (by omega)]
      exact ⟨accs, 0, false, rfl, rfl⟩

theorem land128_of_cont {b : Nat} (h1 : 128 ≤ b) (h2 : b < 256) : b &&& 128 = 128 := by
  have h128 : (128 : Nat) = 2 ^ 7 := by norm_num
  nth_rewrite 1 [h128]
  rw [Nat.and_two_pow]
  have ht : b.testBit 7 = true := by
    rw [Nat.testBit_to_div_mod]
    have hdiv : b / 2 ^ 7 = 1 := by
      have : (2 : Nat) ^ 7 = 128 := by norm_num
      rw [this]
      omega
    rw [hdiv]
    decide
  rw [ht]
  norm_num

theorem varintCore_single {b : Nat} (hb : b < 128) (rest : List Nat) :
    varintCore (b :: rest) 0 0 = (b, 1) := by
  simp only [varintCore]
  rw [land127_of_lt hb, land128_of_lt hb]
  simp

theorem parse_varint_head {data : List Nat} {off b : Nat} (rest : List Nat)
    (h : data.drop off = b :: rest) (hb : b < 128) :
    parse_varint data off = (b, off + 1) := by
  simp only [parse_varint, h, varintCore_single hb]

theorem parse_varint_at {data : List Nat} {off : Nat} (v : Nat) (rest : List Nat)
    (h : data.drop off = encodeVarint v ++ rest) :
    parse_varint data off = (v, off + (encodeVarint v).length) := by
  simp only [parse_varint, h, varintCore_encode]
  simp

theorem parse_ld_at {data : List Nat} {off L : Nat} {bs rest : List Nat}
    (h : data.drop off = encodeVarint L ++ bs ++ rest) (hL : bs.length = L) :
    parse_length_delimited data off = (bs, off + (encodeVarint L).length + L) := by
  have hv : parse_varint data off = (L, off + (encodeVarint L).length) :=
    parse_varint_at L (bs ++ rest) (by rw [h, List.append_assoc])
  have hdrop : data.drop (off + (encodeVarint L).length) = bs ++ rest := by
    rw [← List.drop_drop, h, List.append_assoc, List.drop_left]
  simp only [parse_length_delimited, hv, hdrop]
  subst hL
  rw [List.take_left]

theorem varintCore_all_cont : ∀ (bs : List Nat) (r s : Nat),
    (∀ b ∈ bs, 128 ≤ b ∧ b < 256) → (varintCore bs r s).2 = bs.length := by
  intro bs
  induction bs with
  | nil => intro r s _; rfl
  | cons b rest ih =>
    intro r s h
    have hb := h b (by simp)
    simp only [varintCore, land128_of_cont hb.1 hb.2]
    rw [if_neg (by norm_num)]
    simp only [List.length_cons]
    rw [ih _ _ (fun x hx => h x (by simp [hx]))]

theorem parse_varint_truncated {data : List Nat} {off : Nat} (hoff : off ≤ data.length)
    (h : ∀ b ∈ data.drop off, 128 ≤ b ∧ b < 256) :
    (parse_varint data off).2 = data.length := by
  simp only [parse_varint]
  rw [varintCore_all_cont _ _ _ h, List.length_drop]
  omega

theorem parse_ld_overrun {data : List Nat} {off : Nat}
    (h : data.length ≤ (parse_varint data off).2 + (parse_varint data off).1) :
    parse_length_delimited data off =
      (data.drop (parse_varint data off).2,
       (parse_varint data off).2 + (parse_varint data off).1) := by
  simp only [parse_length_delimited]
  rw [List.take_of_length_le]
  rw [List.length_drop]
  omega

theorem decodeOtpLoop_step (fuel : Nat) (data : List Nat) (off : Nat) (account : Account)
    (hg : off < data.length) :
    decodeOtpLoop (fuel + 1) data off account =
      match otpDispatch data (parse_varint data off).2 (parse_varint data off).1 account with
      | Sum.inl r => r
      | Sum.inr p => decodeOtpLoop fuel data p.1 p.2 := by
  simp only [decodeOtpLoop, if_pos hg]

theorem decodeMigrationLoop_step (fuel : Nat) (data : List Nat) (off : Nat)
    (accs : List Account) (hg : off < data.length) :
    decodeMigrationLoop (fuel + 1) data off accs =
      match migDispatch data (parse_varint data off).2 (parse_varint data off).1 accs with
      | Sum.inl r => r
      | Sum.inr p => decodeMigrationLoop fuel data p.1 p.2 := by
  simp only [decodeMigrationLoop, if_pos hg]

theorem decode_otp_step1 {tag : Nat} {body : List Nat} {off2 : Nat} {acc1 : Account}
    (htag : tag < 128)
    (hdisp : otpDispatch (tag :: body) 1 tag {} = Sum.inr (off2, acc1)) :
    decode_otp_parameters (tag :: body) =
      (decodeOtpLoop ((tag :: body).length) (tag :: body) off2 acc1).1 := by
  have hpv0 : parse_varint (tag :: body) 0 = (tag, 1) :=
    parse_varint_head body (by simp) htag
  have hd2 : otpDispatch (tag :: body) (parse_varint (tag :: body) 0).2
      (parse_varint (tag :: body) 0).1 {} = Sum.inr (off2, acc1) := by
    rw [hpv0]
    exact hdisp
  unfold decode_otp_parameters decodeOtpFull
  rw [decodeOtpLoop_step _ _ _ _ (by simp), hd2]

theorem decode_mig_step1 {tag : Nat} {body : List Nat} {off2 : Nat} {accs1 : List Account}
    (htag : tag < 128)
    (hdisp : migDispatch (tag :: body) 1 tag [] = Sum.inr (off2, accs1)) :
    decode_google_authenticator_migration (tag :: body) =
      (decodeMigrationLoop ((tag :: body).length) (tag :: body) off2 accs1).1 := by
  have hpv0 : parse_varint (tag :: body) 0 = (tag, 1) :=
    parse_varint_head body (by simp) htag
  have hd2 : migDispatch (tag :: body) (parse_varint (tag :: body) 0).2
      (parse_varint (tag :: body) 0).1 [] = Sum.inr (off2, accs1) := by
    rw [hpv0]
    exact hdisp
  unfold decode_google_authenticator_migration decodeMigrationFull
  rw [decodeMigrationLoop_step _ _ _ _ (by simp), hd2]

theorem decode_otp_single {tag : Nat} {body : List Nat} {acc1 : Account}
    (htag : tag < 128)
    (hdisp : otpDispatch (tag :: body) 1 tag {} = Sum.inr (1 + body.length, acc1)) :
    decode_otp_parameters (tag :: body) = acc1 := by
  rw [decode_otp_step1 htag hdisp,
    decodeOtpLoop_stop _ _ _ _ (by simp [Nat.add_comm])]

theorem decode_mig_single {tag : Nat} {body : List Nat} {accs1 : List Account}
    (htag : tag < 128)
    (hdisp : migDispatch (tag :: body) 1 tag [] = Sum.inr (1 + body.length, accs1)) :
    decode_google_authenticator_migration (tag :: body) = accs1 := by
  rw [decode_mig_step1 htag hdisp,
    decodeMigrationLoop_stop _ _ _ _ (by simp [Nat.add_comm])]

theorem encodeVarint_length_pos (v : Nat) : 1 ≤ (encodeVarint v).length := by
  rw [encodeVarint]
  split <;> simp

/-- C7: for every unsigned integer v below 2^35, parsing the canonical
varint encoding of v from offset 0 with parse_varint returns the pair
(v, length of the encoding). -/
theorem c7_varint_roundtrip (v : Nat) (h : v < 2 ^ 35) :
    parse_varint (encodeVarint v) 0 = (v, (encodeVarint v).length) := by
  have := parse_varint_encode v []
  simpa using this

theorem c7_varint_roundtrip_witness :
    300 < 2 ^ 35 ∧ parse_varint (encodeVarint 300) 0 = (300, (encodeVarint 300).length) :=
  ⟨by norm_num, c7_varint_roundtrip 300 (by norm_num)⟩

/-- C10: for every byte buffer and every offset at or past the end of
the buffer, parse_varint returns value 0 with the offset unchanged and
without any error; the resulting tag has field number 0 (value >>> 3)
and wire type 0 (value &&& 7). -/
theorem c10_varint_past_end (data : List Nat) (offset : Nat) (h : data.length ≤ offset) :
    parse_varint data offset = (0, offset) ∧
      (parse_varint data offset).1 >>> 3 = 0 ∧ (parse_varint data offset).1 &&& 7 = 0 := by
  have hd : data.drop offset = [] := by
    rw [List.drop_eq_nil_iff]
    omega
  refine ⟨?_, ?_, ?_⟩ <;> simp [parse_varint, hd, varintCore]

theorem c10_varint_past_end_witness :
    ([5] : List Nat).length ≤ 3 ∧ parse_varint [5] 3 = (0, 3) :=
  ⟨by decide, (c10_varint_past_end [5] 3 (by decide)).1⟩

/-- C1 as stated is false: a varint read that reaches the end of the
buffer with the continuation bit still set does not fail or report
malformed input — it returns the very same value as a well-formed
encoding of 0 — and a length-delimited field whose declared length
exceeds the remaining bytes makes the migration decoder decode the
short slice into a record, so the decoder does not return exactly the
records accumulated before the truncation point. -/
theorem c1_counterexample :
    parse_varint [0x80] 0 = (0, 1) ∧ parse_varint [0x00] 0 = (0, 1) ∧
    decode_google_authenticator_migration [0x0A, 0x05, 0x28, 0x07] =
      [{ digits := some 7 }] ∧
    ([({ digits := some 7 } : Account)] : List Account) ≠ [] := by decide

/-- C1 amended: the primitives return silently on truncation: a varint
whose remaining bytes all carry the continuation bit is consumed to the
end of the buffer (no error), a declared length exceeding the remaining
bytes yields the whole short remainder as the slice with the offset
past the end (no error), and the migration loop, on finding the offset
at or past the end, returns exactly the accumulated records without any
abort. -/
theorem c1_truncation_behavior :
    (∀ (data : List Nat) (offset : Nat), offset ≤ data.length →
      (∀ b ∈ data.drop offset, 128 ≤ b ∧ b < 256) →
      (parse_varint data offset).2 = data.length) ∧
    (∀ (data : List Nat) (offset : Nat),
      data.length ≤ (parse_varint data offset).2 + (parse_varint data offset).1 →
      parse_length_delimited data offset =
        (data.drop (parse_varint data offset).2,
         (parse_varint data offset).2 + (parse_varint data offset).1)) ∧
    (∀ (fuel : Nat) (data : List Nat) (offset : Nat) (accs : List Account),
      data.length ≤ offset →
      decodeMigrationLoop fuel data offset accs = (accs, offset, false)) :=
  ⟨fun _ _ h1 h2 => parse_varint_truncated h1 h2,
   fun _ _ h => parse_ld_overrun h,
   fun fuel data offset accs h => decodeMigrationLoop_stop fuel data offset accs h⟩

theorem c1_truncation_behavior_witness :
    (parse_varint [0x80] 0).2 = ([0x80] : List Nat).length ∧
    parse_length_delimited [2, 97] 0 =
      (([2, 97] : List Nat).drop (parse_varint [2, 97] 0).2,
       (parse_varint [2, 97] 0).2 + (parse_varint [2, 97] 0).1) ∧
    decodeMigrationLoop 5 [1, 2] 2 [] = ([], 2, false) :=
  ⟨c1_truncation_behavior.1 [0x80] 0 (by decide) (by decide),
   c1_truncation_behavior.2.1 [2, 97] 0 (by decide),
   c1_truncation_behavior.2.2 5 [1, 2] 2 [] (by decide)⟩

/-- C3 as stated is false: a field-1 sub-message that yields no
recognizable fields decodes to the empty account dict, which is falsy,
so the migration decoder drops it instead of appending an empty-valued
record. -/
theorem c3_counterexample :
    decode_otp_parameters [] = ({} : Account) ∧
    decode_google_authenticator_migration [0x0A, 0x00] = [] := by decide

/-- C3 amended: a field-1 sub-message is decoded and its record is
appended exactly when the resulting account dict is truthy (at least
one recognized field was set); a sub-message yielding the empty dict is
dropped. -/
theorem c3_empty_submessage (bs : List Nat) :
    decode_google_authenticator_migration (10 :: (encodeVarint bs.length ++ bs)) =
      (if (decode_otp_parameters bs).nonempty then [decode_otp_parameters bs] else []) := by
  apply decode_mig_single (by norm_num)
  have hld : parse_length_delimited (10 :: (encodeVarint bs.length ++ bs)) 1 =
      (bs, 1 + (encodeVarint bs.length).length + bs.length) :=
    parse_ld_at (show ((10 : Nat) :: (encodeVarint bs.length ++ bs)).drop 1 =
      encodeVarint bs.length ++ bs ++ [] by simp) rfl
  by_cases hne : (decode_otp_parameters bs).nonempty = true
  · simp [migDispatch, hld, hne, Nat.add_assoc, (by decide : (10 : Nat) >>> 3 = 1),
      (by decide : (10 : Nat) &&& 7 = 2)]
  · simp [migDispatch, hld, hne, Nat.add_assoc, (by decide : (10 : Nat) >>> 3 = 1),
      (by decide : (10 : Nat) &&& 7 = 2)]

/-- C4 as stated is partly false: decode_otp_parameters does map a
field-6 varint 0 to HOTP, but the record decode_qr_texts emits for that
account hardcodes format 'TOTP' and carries no field with the account's
type, so the output record does not carry HOTP. -/
theorem c4_counterexample :
    (decode_otp_parameters [0x30, 0x00]).type = some "HOTP" ∧
    (migrationOutRecord (decode_otp_parameters [0x30, 0x00]) "t").format = "TOTP" ∧
    ("HOTP" : String) ≠ "TOTP" := by decide

/-- C4 amended: decode_otp_parameters maps a field-6 varint code 0 to
HOTP and every other code (1, 2, or unknown) to TOTP in the account's
type entry; the migration output record of decode_qr_texts hardcodes
format 'TOTP' and is entirely independent of the account's type entry. -/
theorem c4_type_mapping :
    (∀ v : Nat, decode_otp_parameters (48 :: encodeVarint v) =
        { type := some (if v = 0 then "HOTP" else "TOTP") }) ∧
    (∀ (a : Account) (t : String), (migrationOutRecord a t).format = "TOTP") ∧
    (∀ (a : Account) (s : Option String) (t : String),
      migrationOutRecord { a with type := s } t = migrationOutRecord a t) := by
  refine ⟨?_, fun a t => rfl, fun a s t => rfl⟩
  intro v
  have heq : type_map v = (if v = 0 then "HOTP" else "TOTP") := by
    unfold type_map
    by_cases h0 : v = 0
    · simp [h0]
    · by_cases h1 : v = 1 <;> by_cases h2 : v = 2 <;> simp [h0, h1, h2]
  rw [← heq]
  apply decode_otp_single (by norm_num)
  have hpv : parse_varint (48 :: encodeVarint v) 1 = (v, 1 + (encodeVarint v).length) :=
    parse_varint_at v [] (by simp)
  simp [otpDispatch, hpv, Nat.add_comm, (by decide : (48 : Nat) >>> 3 = 6),
    (by decide : (48 : Nat) &&& 7 = 0)]

/-- C6 as stated is false: the record decoder decodes name/issuer bytes
with errors='ignore', which drops invalid byte sequences; it does not
substitute a replacement character, as decoding the invalid byte 0xFF
followed by 'a' shows. -/
theorem c6_counterexample :
    (decode_otp_parameters [0x12, 0x02, 0xFF, 0x61]).name = some "a" ∧
    utf8DecodeReplaceSpec [0xFF, 0x61] = ⟨[Char.ofNat 0xFFFD, 'a']⟩ ∧
    some "a" ≠ some (utf8DecodeReplaceSpec [0xFF, 0x61]) := by decide

/-- C6 amended: for every byte string in a field-2 (name) or field-3
(issuer) length-delimited field, the record decoder stores the
errors='ignore' UTF-8 decoding — invalid byte sequences are dropped
rather than replaced — and never fails the record. -/
theorem c6_utf8_ignore (bs : List Nat) :
    decode_otp_parameters (18 :: (encodeVarint bs.length ++ bs)) =
      { name := some (utf8DecodeIgnore bs) } ∧
    decode_otp_parameters (26 :: (encodeVarint bs.length ++ bs)) =
      { issuer := some (utf8DecodeIgnore bs) } := by
  constructor
  · apply decode_otp_single (by norm_num)
    have hld : parse_length_delimited (18 :: (encodeVarint bs.length ++ bs)) 1 =
        (bs, 1 + (encodeVarint bs.length).length + bs.length) :=
      parse_ld_at (show ((18 : Nat) :: (encodeVarint bs.length ++ bs)).drop 1 =
        encodeVarint bs.length ++ bs ++ [] by simp) rfl
    simp [otpDispatch, hld, Nat.add_assoc, (by decide : (18 : Nat) >>> 3 = 2),
      (by decide : (18 : Nat) &&& 7 = 2)]
  · apply decode_otp_single (by norm_num)
    have hld : parse_length_delimited (26 :: (encodeVarint bs.length ++ bs)) 1 =
        (bs, 1 + (encodeVarint bs.length).length + bs.length) :=
      parse_ld_at (show ((26 : Nat) :: (encodeVarint bs.length ++ bs)).drop 1 =
        encodeVarint bs.length ++ bs ++ [] by simp) rfl
    simp [otpDispatch, hld, Nat.add_assoc, (by decide : (26 : Nat) >>> 3 = 3),
      (by decide : (26 : Nat) &&& 7 = 2)]

/-- C9 as stated is false: on a buffer whose first field has wire type
5 (fixed32, unimplemented), the migration decoder breaks out of the
loop right after the tag, with the final offset strictly before the end
of the buffer. -/
theorem c9_counterexample :
    decodeMigrationFull [0x0D, 0x00] = ([], 1, true) ∧
    (decodeMigrationFull [0x0D, 0x00]).2.1 < ([0x0D, 0x00] : List Nat).length := by decide

/-- C9 amended: both decoders terminate on every finite buffer and
return a record value; the final offset is at or past the end of the
buffer unless the loop stopped early via the break on an unimplemented
wire type, which the early-stop flag records. -/
theorem c9_termination (data : List Nat) :
    (data.length ≤ (decodeMigrationFull data).2.1 ∨ (decodeMigrationFull data).2.2 = true) ∧
    (data.length ≤ (decodeOtpFull data).2.1 ∨ (decodeOtpFull data).2.2 = true) :=
  ⟨decodeMigrationLoop_end _ _ _ _ (by omega), decodeOtpLoop_end _ _ _ _ (by omega)⟩

theorem c8_otp_skip (bs post : List Nat) :
    decode_otp_parameters (66 :: (encodeVarint bs.length ++ (bs ++ post))) =
      decode_otp_parameters post := by
  have hld : parse_length_delimited (66 :: (encodeVarint bs.length ++ (bs ++ post))) 1 =
      (bs, 1 + (encodeVarint bs.length).length + bs.length) :=
    parse_ld_at (show ((66 : Nat) :: (encodeVarint bs.length ++ (bs ++ post))).drop 1 =
      encodeVarint bs.length ++ bs ++ post by simp [List.append_assoc]) rfl
  have hdisp : otpDispatch (66 :: (encodeVarint bs.length ++ (bs ++ post))) 1 66 {} =
      Sum.inr (1 + (encodeVarint bs.length).length + bs.length, {}) := by
    simp [otpDispatch, hld, (by decide : (66 : Nat) >>> 3 = 8),
      (by decide : (66 : Nat) &&& 7 = 2)]
  rw [decode_otp_step1 (by norm_num) hdisp]
  have hdrop : (66 :: (encodeVarint bs.length ++ (bs ++ post))).drop
      (1 + (encodeVarint bs.length).length + bs.length) = post.drop 0 := by
    rw [List.drop_zero,
      show 1 + (encodeVarint bs.length).length + bs.length =
        (encodeVarint bs.length).length + bs.length + 1 from by omega,
      List.drop_succ_cons, ← List.drop_drop, List.drop_left, List.drop_left]
  obtain ⟨A, d, b, r1, r2⟩ :=
    decodeOtpLoop_shift ((66 :: (encodeVarint bs.length ++ (bs ++ post))).length)
      (66 :: (encodeVarint bs.length ++ (bs ++ post)))
      (1 + (encodeVarint bs.length).length + bs.length) post 0 {} hdrop
  rw [r1]
  unfold decode_otp_parameters decodeOtpFull
  rw [decodeOtpLoop_fuel (post.length + 1)
    ((66 :: (encodeVarint bs.length ++ (bs ++ post))).length) post 0 {}
    (by omega) (by simp; omega), r2]

theorem c8_mig_skip (v : Nat) (bs post : List Nat) :
    decode_google_authenticator_migration
        (16 :: (encodeVarint v ++ (66 :: (encodeVarint bs.length ++ (bs ++ post))))) =
      decode_google_authenticator_migration (16 :: (encodeVarint v ++ post)) := by
  have he := encodeVarint_length_pos v
  have heL := encodeVarint_length_pos bs.length
  have hp1 : parse_varint
      (16 :: (encodeVarint v ++ (66 :: (encodeVarint bs.length ++ (bs ++ post))))) 1 =
      (v, 1 + (encodeVarint v).length) :=
    parse_varint_at v (66 :: (encodeVarint bs.length ++ (bs ++ post))) rfl
  have hdisp1 : migDispatch
      (16 :: (encodeVarint v ++ (66 :: (encodeVarint bs.length ++ (bs ++ post))))) 1 16 [] =
      Sum.inr (1 + (encodeVarint v).length, []) := by
    simp [migDispatch, hp1, (by decide : (16 : Nat) >>> 3 = 2),
      (by decide : (16 : Nat) &&& 7 = 0)]
  rw [decode_mig_step1 (by norm_num) hdisp1]
  have hp1r : parse_varint (16 :: (encodeVarint v ++ post)) 1 =
      (v, 1 + (encodeVarint v).length) :=
    parse_varint_at v post rfl
  have hdisp1r : migDispatch (16 :: (encodeVarint v ++ post)) 1 16 [] =
      Sum.inr (1 + (encodeVarint v).length, []) := by
    simp [migDispatch, hp1r, (by decide : (16 : Nat) >>> 3 = 2),
      (by decide : (16 : Nat) &&& 7 = 0)]
  rw [decode_mig_step1 (by norm_num) hdisp1r]
  simp only [List.length_cons]
  have hdropA : (16 :: (encodeVarint v ++ (66 :: (encodeVarint bs.length ++ (bs ++ post))))).drop
      (1 + (encodeVarint v).length) = 66 :: (encodeVarint bs.length ++ (bs ++ post)) := by
    rw [show 1 + (encodeVarint v).length = (encodeVarint v).length + 1 from by omega,
      List.drop_succ_cons, List.drop_left]
  have hp2 : parse_varint
      (16 :: (encodeVarint v ++ (66 :: (encodeVarint bs.length ++ (bs ++ post)))))
      (1 + (encodeVarint v).length) = (66, 1 + (encodeVarint v).length + 1) :=
    parse_varint_head (encodeVarint bs.length ++ (bs ++ post)) hdropA (by norm_num)
  have hdropB : (16 :: (encodeVarint v ++ (66 :: (encodeVarint bs.length ++ (bs ++ post))))).drop
      (1 + (encodeVarint v).length + 1) = encodeVarint bs.length ++ bs ++ post := by
    rw [← List.drop_drop, hdropA]
    simp [List.append_assoc]
  have hld2 : parse_length_delimited
      (16 :: (encodeVarint v ++ (66 :: (encodeVarint bs.length ++ (bs ++ post)))))
      (1 + (encodeVarint v).length + 1) =
      (bs, 1 + (encodeVarint v).length + 1 + (encodeVarint bs.length).length + bs.length) :=
    parse_ld_at hdropB rfl
  have hdisp2 : migDispatch
      (16 :: (encodeVarint v ++ (66 :: (encodeVarint bs.length ++ (bs ++ post)))))
      (1 + (encodeVarint v).length + 1) 66 [] =
      Sum.inr (1 + (encodeVarint v).length + 1 + (encodeVarint bs.length).length +
        bs.length, []) := by
    simp [migDispatch, hld2, (by decide : (66 : Nat) >>> 3 = 8),
      (by decide : (66 : Nat) &&& 7 = 2)]
  have hguard2 : 1 + (encodeVarint v).length <
      (16 :: (encodeVarint v ++ (66 :: (encodeVarint bs.length ++ (bs ++ post))))).length := by
    simp
    omega
  rw [decodeMigrationLoop_step _ _ _ _ hguard2]
  have hd4 : migDispatch
      (16 :: (encodeVarint v ++ (66 :: (encodeVarint bs.length ++ (bs ++ post)))))
      (parse_varint (16 :: (encodeVarint v ++ (66 :: (encodeVarint bs.length ++ (bs ++ post)))))
        (1 + (encodeVarint v).length)).2
      (parse_varint (16 :: (encodeVarint v ++ (66 :: (encodeVarint bs.length ++ (bs ++ post)))))
        (1 + (encodeVarint v).length)).1 [] =
      Sum.inr (1 + (encodeVarint v).length + 1 + (encodeVarint bs.length).length +
        bs.length, []) := by
    rw [hp2]
    exact hdisp2
  rw [hd4]
  show (decodeMigrationLoop
      ((encodeVarint v ++ (66 :: (encodeVarint bs.length ++ (bs ++ post)))).length)
      (16 :: (encodeVarint v ++ (66 :: (encodeVarint bs.length ++ (bs ++ post)))))
      (1 + (encodeVarint v).length + 1 + (encodeVarint bs.length).length + bs.length) []).1 = _
  have hdrop2 : (16 :: (encodeVarint v ++ (66 :: (encodeVarint bs.length ++ (bs ++ post))))).drop
      (1 + (encodeVarint v).length + 1 + (encodeVarint bs.length).length + bs.length) =
      (16 :: (encodeVarint v ++ post)).drop (1 + (encodeVarint v).length) := by
    rw [show 1 + (encodeVarint v).length + 1 + (encodeVarint bs.length).length + bs.length =
      (1 + (encodeVarint v).length + 1) + ((encodeVarint bs.length).length + bs.length)
      from by omega, ← List.drop_drop, hdropB,
      show (encodeVarint bs.length).length + bs.length =
        (encodeVarint bs.length ++ bs).length from by simp, List.drop_left,
      show 1 + (encodeVarint v).length = (encodeVarint v).length + 1 from by omega,
      List.drop_succ_cons, List.drop_left]
  obtain ⟨A, d, b, r1, r2⟩ := decodeMigrationLoop_shift
    ((encodeVarint v ++ (66 :: (encodeVarint bs.length ++ (bs ++ post)))).length)
    (16 :: (encodeVarint v ++ (66 :: (encodeVarint bs.length ++ (bs ++ post)))))
    (1 + (encodeVarint v).length + 1 + (encodeVarint bs.length).length + bs.length)
    (16 :: (encodeVarint v ++ post)) (1 + (encodeVarint v).length) [] hdrop2
  rw [r1, decodeMigrationLoop_fuel ((encodeVarint v ++ post).length + 1)
    ((encodeVarint v ++ (66 :: (encodeVarint bs.length ++ (bs ++ post)))).length)
    (16 :: (encodeVarint v ++ post)) (1 + (encodeVarint v).length) []
    (by simp; try omega) (by simp; try omega), r2]

/-- C8: an unknown field number 8 with wire type 2 appearing after a
known field (the field-2 version varint) and before arbitrary further
fields is skipped over its declared-length slice, and the subsequent
bytes decode exactly as they would without the unknown field; likewise
inside one account sub-message for decode_otp_parameters. -/
theorem c8_unknown_field_skip :
    (∀ (v : Nat) (bs post : List Nat),
      decode_google_authenticator_migration
          (16 :: (encodeVarint v ++ (66 :: (encodeVarint bs.length ++ (bs ++ post))))) =
        decode_google_authenticator_migration (16 :: (encodeVarint v ++ post))) ∧
    (∀ (bs post : List Nat),
      decode_otp_parameters (66 :: (encodeVarint bs.length ++ (bs ++ post))) =
        decode_otp_parameters post) :=
  ⟨c8_mig_skip, c8_otp_skip⟩

/-- Split a character list at the first occurrence of `c`
(Python's `split(c, 1)`); `none` when `c` does not occur. -/
def splitFirst (c : Char) : List Char → Option (List Char × List Char)
  | [] => none
  | x :: xs =>
    if x = c then some ([], xs)
    else
      match splitFirst c xs with
      | none => none
      | some p => some (x :: p.1, p.2)

/-- Split a character list on every occurrence of `c`
(Python's `split(c)`); always returns at least one group. -/
def splitSep (c : Char) : List Char → List (List Char)
  | [] => [[]]
  | x :: xs =>
    match splitSep c xs with
    | [] => [[]]
    | g :: gs => if x = c then [] :: g :: gs else (x :: g) :: gs

/-- The components of `urllib.parse.urlparse` that `decode_qr_texts`
uses. -/
structure UrlParts where
  netloc : List Char
  path : List Char
  params : List Char
  query : List Char
  fragment : List Char
  deriving DecidableEq, Repr

/-- `urllib.parse.urlparse(text)` for a text beginning `otpauth://`,
applied to the characters after that prefix: `urlsplit` first removes
every tab, carriage return and newline from the URL (CPython's
`_UNSAFE_URL_BYTES_TO_REMOVE`); then the netloc extends to the first
`/`, `?` or `#`; the fragment is everything after the first `#`; the
query everything after the first `?` of the remainder.  `urlparse`
splits params off the path only for schemes in `uses_params`, which
does not include `otpauth`, so params are always empty here. -/
def urlparseOtpauth (rest : List Char) : UrlParts :=
  let clean := rest.filter (fun ch => !(ch == '\t' || ch == '\r' || ch == '\n'))
  let netloc := clean.takeWhile (fun ch => !(ch == '/' || ch == '?' || ch == '#'))
  let url1 := clean.dropWhile (fun ch => !(ch == '/' || ch == '?' || ch == '#'))
  let fr := match splitFirst '#' url1 with
    | some p => p
    | none => (url1, [])
  let qu := match splitFirst '?' fr.1 with
    | some p => p
    | none => (fr.1, [])
  { netloc := netloc, path := qu.1, params := [], query := qu.2, fragment := fr.2 }

/-- Value of an ASCII hex digit (CPython's `_hextobyte`, accepting both
cases), `none` for a non-hex character. -/
def hexVal (c : Char) : Option Nat :=
  if '0' ≤ c ∧ c ≤ '9' then some (c.toNat - 48)
  else if 'A' ≤ c ∧ c ≤ 'F' then some (c.toNat - 55)
  else if 'a' ≤ c ∧ c ≤ 'f' then some (c.toNat - 87)
  else none

/-- Tokenize a percent-encoded string: each `%XY` with two hex digits
becomes a byte, everything else stays a literal character (a `%` not
followed by two hex digits is literal, as in CPython `unquote`). -/
def pctTokensF : Nat → List Char → List (Sum Char Nat)
  | 0, _ => []
  | _, [] => []
  | fuel + 1, c :: rest =>
    if c = '%' then
      match rest with
      | c1 :: c2 :: rest2 =>
        (match hexVal c1, hexVal c2 with
         | some a, some b => Sum.inr (16 * a + b) :: pctTokensF fuel rest2
         | _, _ => Sum.inl '%' :: pctTokensF fuel rest)
      | _ => Sum.inl c :: pctTokensF fuel rest
    else Sum.inl c :: pctTokensF fuel rest

/-- Tokenization with the fuel instantiated sufficiently (any fuel at
least the length gives the same value). -/
def pctTokens (s : List Char) : List (Sum Char Nat) :=
  pctTokensF s.length s

/-- The U+FFFD replacement character. -/
def replChar : Char := Char.ofNat 0xFFFD

/-- Fold percent tokens from the right, grouping maximal runs of
consecutive escape bytes: the pending run (to be UTF-8 decoded jointly,
as CPython does) and the output accumulated so far. -/
def toksDecodeAux : List (Sum Char Nat) → List Nat × List Char
  | [] => ([], [])
  | Sum.inr b :: rest => (b :: (toksDecodeAux rest).1, (toksDecodeAux rest).2)
  | Sum.inl c :: rest =>
    ([], c :: (utf8Core [replChar] (toksDecodeAux rest).1 ++ (toksDecodeAux rest).2))

/-- CPython `urllib.parse.unquote(s)` with the default
`encoding='utf-8', errors='replace'`: each maximal run of `%XY` escapes
is decoded jointly as UTF-8. -/
def unquoteChars (s : List Char) : List Char :=
  utf8Core [replChar] (toksDecodeAux (pctTokens s)).1 ++ (toksDecodeAux (pctTokens s)).2

/-- CPython `unquote_plus`: `+` becomes a space, then percent-decoding. -/
def unquotePlus (s : List Char) : List Char :=
  unquoteChars (s.map (fun ch => if ch = '+' then ' ' else ch))

/-- `urllib.parse.parse_qsl(qs)` with the default settings used by
`parse_qs` in the source: pairs split on `&`, empty chunks skipped, a
chunk without `=` skipped, a pair with empty value skipped
(`keep_blank_values=False`), names and values unquoted with
`unquote_plus`. -/
def parse_qsl (qs : List Char) : List (String × String) :=
  (splitSep '&' qs).filterMap (fun nv =>
    if nv = [] then none
    else
      match splitFirst '=' nv with
      | none => none
      | some p =>
        if p.2 = [] then none
        else some (⟨unquotePlus p.1⟩, ⟨unquotePlus p.2⟩))

/-- `parse_qs(qs).get(k, [d])[0]`: the first value of key `k` in
encounter order (parse_qs keeps all values of a repeated key in order;
the source indexes `[0]`). -/
def getFirst (qp : List (String × String)) (k d : String) : String :=
  match qp.find? (fun p => p.1 == k) with
  | some p => p.2
  | none => d

/-- The digit tail of Python `int(str)`: single underscores are allowed
between digits only. -/
def digitsVal : List Char → Nat → Option Nat
  | [], acc => some acc
  | '_' :: c :: rest, acc =>
    if c.isDigit then digitsVal rest (acc * 10 + (c.toNat - 48)) else none
  | c :: rest, acc =>
    if c.isDigit then digitsVal rest (acc * 10 + (c.toNat - 48)) else none

/-- A non-empty all-digit (with legal underscores) character list, as a
number. -/
def parseDigits : List Char → Option Nat
  | [] => none
  | c :: rest => if c.isDigit then digitsVal rest (c.toNat - 48) else none

/-- Python `int(s)` on ASCII text: surrounding whitespace stripped, an
optional sign, then decimal digits (underscores between digits
allowed); `none` models the `ValueError` that the enclosing `try` of
`decode_qr_texts` turns into an error record. -/
def pyIntChars (l : List Char) : Option Int :=
  let t := ((l.dropWhile (·.isWhitespace)).reverse.dropWhile (·.isWhitespace)).reverse
  match t with
  | '-' :: rest => (parseDigits rest).map (fun n => -(n : Int))
  | '+' :: rest => (parseDigits rest).map (fun n => (n : Int))
  | _ => (parseDigits t).map (fun n => (n : Int))

/-- Python `int` on a string. -/
def pyInt (s : String) : Option Int :=
  pyIntChars s.data

/-- The dict appended by `decode_qr_texts` for one `otpauth://` text
(lines 303-314 of qr_extractor.py). -/
structure OtpauthRecord where
  type : String
  format : String
  name : String
  issuer : String
  secret : String
  algorithm : String
  digits : Int
  period : Int
  counter : Int
  original_text : String
  deriving DecidableEq, Repr

/-- The `otpauth://` branch of `decode_qr_texts` for one text that
starts with `otpauth://` (10 characters): urlparse, path split on `/`
after stripping leading slashes (first segment to issuer, second to
name), query parameters via parse_qs with first-occurrence indexing
`[0]`, and `int(...)` conversions whose failure (`none`) models the
exception path that yields an error record instead. -/
def decodeOtpauthUri (text : String) : Option OtpauthRecord :=
  let u := urlparseOtpauth (text.data.drop 10)
  let path_parts := splitSep '/' (u.path.dropWhile (fun ch => ch == '/'))
  let issuer := match path_parts with
    | [] => ([] : List Char)
    | h :: _ => h
  let account_name := path_parts.getD 1 []
  let qp := parse_qsl u.query
  match pyInt (getFirst qp "digits" "6"), pyInt (getFirst qp "period" "30"),
      pyInt (getFirst qp "counter" "0") with
  | some d, some p, some c =>
    some { type := "otpauth"
           format := ⟨u.netloc.map Char.toUpper⟩
           name := ⟨account_name⟩
           issuer := ⟨issuer⟩
           secret := getFirst qp "secret" ""
           algorithm := getFirst qp "algorithm" "SHA1"
           digits := d
           period := p
           counter := c
           original_text := text }
  | _, _, _ => none

example : decodeOtpauthUri "otpauth://totp/alice?secret=X" =
    some { type := "otpauth", format := "TOTP", name := "", issuer := "alice",
           secret := "X", algorithm := "SHA1", digits := 6, period := 30, counter := 0,
           original_text := "otpauth://totp/alice?secret=X" } := by decide

example : decodeOtpauthUri "otpauth://totp/Example/alice?secret=S&digits=8" =
    some { type := "otpauth", format := "TOTP", name := "alice", issuer := "Example",
           secret := "S", algorithm := "SHA1", digits := 8, period := 30, counter := 0,
           original_text := "otpauth://totp/Example/alice?secret=S&digits=8" } := by decide

example : decodeOtpauthUri "otpauth://totp/a?secret=AAA&secret=BBB" =
    some { type := "otpauth", format := "TOTP", name := "", issuer := "a",
           secret := "AAA", algorithm := "SHA1", digits := 6, period := 30, counter := 0,
           original_text := "otpauth://totp/a?secret=AAA&secret=BBB" } := by decide

example : decodeOtpauthUri "otpauth://hotp/x?secret=S&digits=oops" = none := by decide

theorem splitFirst_not_mem {c : Char} : ∀ {l : List Char}, c ∉ l → splitFirst c l = none := by
  intro l
  induction l with
  | nil => intro _; rfl
  | cons x xs ih =>
    intro h
    simp only [List.mem_cons, not_or] at h
    simp only [splitFirst]
    rw [if_neg (fun he => h.1 he.symm), ih h.2]

theorem splitFirst_append {c : Char} : ∀ {xs : List Char} (ys : List Char), c ∉ xs →
    splitFirst c (xs ++ c :: ys) = some (xs, ys) := by
  intro xs
  induction xs with
  | nil => intro ys _; simp [splitFirst]
  | cons x xt ih =>
    intro ys h
    simp only [List.mem_cons, not_or] at h
    have hx : ¬x = c := fun he => h.1 he.symm
    simp only [List.cons_append, splitFirst]
    rw [if_neg hx]
    simp only [List.append_eq]
    simp only [ih ys h.2]

theorem splitSep_ne_nil (c : Char) : ∀ (l : List Char), splitSep c l ≠ [] := by
  intro l
  induction l with
  | nil => simp [splitSep]
  | cons x xs ih =>
    cases h : splitSep c xs with
    | nil => exact absurd h ih
    | cons g gs =>
      simp only [splitSep, h]
      split <;> simp

theorem splitSep_not_mem {c : Char} : ∀ {l : List Char}, c ∉ l → splitSep c l = [l] := by
  intro l
  induction l with
  | nil => intro _; rfl
  | cons x xs ih =>
    intro h
    simp only [List.mem_cons, not_or] at h
    have hx : ¬x = c := fun he => h.1 he.symm
    simp only [splitSep, ih h.2]
    rw [if_neg hx]

theorem splitSep_append {c : Char} : ∀ {xs : List Char} (ys : List Char), c ∉ xs →
    splitSep c (xs ++ c :: ys) = xs :: splitSep c ys := by
  intro xs
  induction xs with
  | nil =>
    intro ys _
    cases h : splitSep c ys with
    | nil => exact absurd h (splitSep_ne_nil c ys)
    | cons g gs =>
      simp only [List.nil_append, splitSep, h]
      simp
  | cons x xt ih =>
    intro ys h
    simp only [List.mem_cons, not_or] at h
    have hx : ¬x = c := fun he => h.1 he.symm
    simp only [List.cons_append, splitSep]
    simp only [List.append_eq]
    simp only [ih ys h.2]
    rw [if_neg hx]

theorem dropWhile_no_slash {l : List Char} (h : ∀ ch ∈ l, ch ≠ '/') :
    l.dropWhile (fun ch => ch == '/') = l := by
  cases l with
  | nil => rfl
  | cons x xs =>
    have hx : (x == '/') = false := by
      simp [h x (List.mem_cons_self x xs)]
    simp [List.dropWhile_cons, hx]

theorem pctTokensF_no_pct : ∀ (fuel : Nat) (s : List Char), s.length ≤ fuel →
    '%' ∉ s → pctTokensF fuel s = s.map Sum.inl := by
  intro fuel
  induction fuel with
  | zero =>
    intro s hlen _
    match s with
    | [] => rfl
  | succ f ih =>
    intro s hlen h
    match s with
    | [] => rfl
    | c :: rest =>
      simp only [List.mem_cons, not_or] at h
      simp only [pctTokensF, List.map_cons]
      rw [if_neg (fun he => h.1 (he.symm : '%' = c)),
        ih rest (by simp at hlen; omega) h.2]

theorem pctTokens_no_pct {s : List Char} (h : '%' ∉ s) : pctTokens s = s.map Sum.inl :=
  pctTokensF_no_pct s.length s (le_refl _) h

theorem toksDecodeAux_inl : ∀ (s : List Char), toksDecodeAux (s.map Sum.inl) = ([], s) := by
  intro s
  induction s with
  | nil => rfl
  | cons x xs ih =>
    simp only [List.map_cons, toksDecodeAux, ih]
    rfl

theorem unquoteChars_id {s : List Char} (h : '%' ∉ s) : unquoteChars s = s := by
  simp [unquoteChars, pctTokens_no_pct h, toksDecodeAux_inl]
  rfl

theorem unquotePlus_id {s : List Char} (h1 : '%' ∉ s) (h2 : '+' ∉ s) : unquotePlus s = s := by
  have hmap : s.map (fun ch => if ch = '+' then ' ' else ch) = s := by
    have : ∀ ch ∈ s, (if ch = '+' then ' ' else ch) = ch := by
      intro ch hch
      rw [if_neg (fun he => h2 (by rw [← he]; exact hch))]
    calc s.map (fun ch => if ch = '+' then ' ' else ch) = s.map id := List.map_congr_left this
      _ = s := List.map_id s
  rw [unquotePlus, hmap]
  exact unquoteChars_id h1

theorem getFirst_cons_eq {k1 w : String} {rest : List (String × String)} {k d : String}
    (h : (k1 == k) = true) : getFirst ((k1, w) :: rest) k d = w := by
  simp [getFirst, List.find?_cons, h]

theorem getFirst_cons_ne {k1 w : String} {rest : List (String × String)} {k d : String}
    (h : (k1 == k) = false) : getFirst ((k1, w) :: rest) k d = getFirst rest k d := by
  simp [getFirst, List.find?_cons, h]

theorem filter_unsafe_id {l : List Char}
    (h : ∀ ch ∈ l, ch ≠ '\t' ∧ ch ≠ '\r' ∧ ch ≠ '\n') :
    l.filter (fun ch => !(ch == '\t' || ch == '\r' || ch == '\n')) = l := by
  apply List.filter_eq_self.mpr
  intro a ha
  have := h a ha
  simp only [Bool.not_eq_eq_eq_not, Bool.not_true, Bool.or_eq_false_iff, beq_eq_false_iff_ne]
  exact ⟨⟨this.1, this.2.1⟩, this.2.2⟩

theorem urlparse_totp (tail : List Char) (h7 : '?' ∉ tail) (h3 : '#' ∉ tail)
    (hu : ∀ ch ∈ tail, ch ≠ '\t' ∧ ch ≠ '\r' ∧ ch ≠ '\n') :
    urlparseOtpauth ('t' :: 'o' :: 't' :: 'p' :: '/' :: tail) =
      { netloc := ['t', 'o', 't', 'p'], path := '/' :: tail, params := [], query := [],
        fragment := [] } := by
  simp only [urlparseOtpauth]
  have hcl : ('t' :: 'o' :: 't' :: 'p' :: '/' :: tail).filter
      (fun ch => !(ch == '\t' || ch == '\r' || ch == '\n')) =
      't' :: 'o' :: 't' :: 'p' :: '/' :: tail := by
    rw [show ('t' :: 'o' :: 't' :: 'p' :: '/' :: tail) =
        ['t', 'o', 't', 'p', '/'] ++ tail from rfl,
      List.filter_append, filter_unsafe_id hu]
    rfl
  rw [hcl]
  have htw : ('t' :: 'o' :: 't' :: 'p' :: '/' :: tail).takeWhile
      (fun ch => !(ch == '/' || ch == '?' || ch == '#')) = ['t', 'o', 't', 'p'] := by
    simp [List.takeWhile_cons]
  have hdw : ('t' :: 'o' :: 't' :: 'p' :: '/' :: tail).dropWhile
      (fun ch => !(ch == '/' || ch == '?' || ch == '#')) = '/' :: tail := by
    simp [List.dropWhile_cons]
  rw [htw, hdw]
  have hfr : splitFirst '#' ('/' :: tail) = none :=
    splitFirst_not_mem (by
      intro hm
      rcases List.mem_cons.mp hm with he | hm2
      · exact absurd he (by decide)
      · exact h3 hm2)
  have hqu : splitFirst '?' ('/' :: tail) = none :=
    splitFirst_not_mem (by
      intro hm
      rcases List.mem_cons.mp hm with he | hm2
      · exact absurd he (by decide)
      · exact h7 hm2)
  rw [hfr, hqu]

theorem urlparse_totp_q (pa q : List Char) (hpa7 : '?' ∉ pa) (hpa3 : '#' ∉ pa)
    (hpaU : ∀ ch ∈ pa, ch ≠ '\t' ∧ ch ≠ '\r' ∧ ch ≠ '\n') (hq3 : '#' ∉ q)
    (hqU : ∀ ch ∈ q, ch ≠ '\t' ∧ ch ≠ '\r' ∧ ch ≠ '\n') :
    urlparseOtpauth ('t' :: 'o' :: 't' :: 'p' :: '/' :: (pa ++ '?' :: q)) =
      { netloc := ['t', 'o', 't', 'p'], path := '/' :: pa, params := [], query := q,
        fragment := [] } := by
  simp only [urlparseOtpauth]
  have hqU2 : ∀ ch ∈ ('?' :: q), ch ≠ '\t' ∧ ch ≠ '\r' ∧ ch ≠ '\n' := by
    intro ch hm
    rcases List.mem_cons.mp hm with he | hm2
    · subst he; exact ⟨by decide, by decide, by decide⟩
    · exact hqU ch hm2
  have hcl : ('t' :: 'o' :: 't' :: 'p' :: '/' :: (pa ++ '?' :: q)).filter
      (fun ch => !(ch == '\t' || ch == '\r' || ch == '\n')) =
      't' :: 'o' :: 't' :: 'p' :: '/' :: (pa ++ '?' :: q) := by
    rw [show ('t' :: 'o' :: 't' :: 'p' :: '/' :: (pa ++ '?' :: q)) =
        ['t', 'o', 't', 'p', '/'] ++ (pa ++ '?' :: q) from rfl,
      List.filter_append, List.filter_append, filter_unsafe_id hpaU,
      filter_unsafe_id hqU2]
    rfl
  rw [hcl]
  have htw : ('t' :: 'o' :: 't' :: 'p' :: '/' :: (pa ++ '?' :: q)).takeWhile
      (fun ch => !(ch == '/' || ch == '?' || ch == '#')) = ['t', 'o', 't', 'p'] := by
    simp [List.takeWhile_cons]
  have hdw : ('t' :: 'o' :: 't' :: 'p' :: '/' :: (pa ++ '?' :: q)).dropWhile
      (fun ch => !(ch == '/' || ch == '?' || ch == '#')) = '/' :: (pa ++ '?' :: q) := by
    simp [List.dropWhile_cons]
  rw [htw, hdw]
  have hfr : splitFirst '#' ('/' :: (pa ++ '?' :: q)) = none :=
    splitFirst_not_mem (by
      intro hm
      rcases List.mem_cons.mp hm with he | hm2
      · exact absurd he (by decide)
      · rcases List.mem_append.mp hm2 with hm3 | hm4
        · exact hpa3 hm3
        · rcases List.mem_cons.mp hm4 with he2 | hm5
          · exact absurd he2 (by decide)
          · exact hq3 hm5)
  rw [hfr]
  have hqu : splitFirst '?' ('/' :: (pa ++ '?' :: q)) = some ('/' :: pa, q) := by
    rw [show ('/' :: (pa ++ '?' :: q)) = ('/' :: pa) ++ '?' :: q from by simp]
    exact splitFirst_append q (by
      intro hm
      rcases List.mem_cons.mp hm with he | hm2
      · exact absurd he (by decide)
      · exact hpa7 hm2)
  rw [hqu]

theorem path_parts_single (label : List Char) (h : ∀ ch ∈ label, ch ≠ '/') :
    splitSep '/' (('/' :: label).dropWhile (fun ch => ch == '/')) = [label] := by
  rw [List.dropWhile_cons]
  rw [if_pos (by decide)]
  rw [dropWhile_no_slash h]
  exact splitSep_not_mem (fun hm => (h '/' hm) rfl)

theorem path_parts_pair (s1 s2 : List Char) (h1ne : s1 ≠ [])
    (h1 : ∀ ch ∈ s1, ch ≠ '/') (h2 : ∀ ch ∈ s2, ch ≠ '/') :
    splitSep '/' (('/' :: (s1 ++ '/' :: s2)).dropWhile (fun ch => ch == '/')) = [s1, s2] := by
  rw [List.dropWhile_cons]
  rw [if_pos (by decide)]
  have hdw : (s1 ++ '/' :: s2).dropWhile (fun ch => ch == '/') = s1 ++ '/' :: s2 := by
    cases s1 with
    | nil => exact absurd rfl h1ne
    | cons x xt =>
      have hx : (x == '/') = false := by
        simp [h1 x (List.mem_cons_self x xt)]
      simp [List.dropWhile_cons, hx]
  rw [hdw, splitSep_append s2 (fun hm => (h1 '/' hm) rfl),
    splitSep_not_mem (fun hm => (h2 '/' hm) rfl)]

/-- C2 as stated is false: for a label with no '/', the decoder puts
the whole label into issuer and leaves name empty, not the other way
around. -/
theorem c2_counterexample :
    (decodeOtpauthUri "otpauth://totp/alice?secret=X").map
        (fun r => (r.issuer, r.name)) = some ("alice", "") ∧
    (("alice" : String), ("" : String)) ≠ (("" : String), ("alice" : String)) := by decide

/-- C2 amended: splitting the label on '/' (for labels free of the
characters '?', '#' and the tab/CR/LF bytes that urlsplit strips):
with no '/' present the whole label becomes the issuer and the name is
empty; with a '/' present the first segment becomes the issuer and the
second the name. -/
theorem c2_label_split :
    (∀ label : List Char, (∀ ch ∈ label, ch ≠ '/' ∧ ch ≠ '?' ∧ ch ≠ '#' ∧ ch ≠ '\t' ∧ ch ≠ '\r' ∧ ch ≠ '\n') →
      decodeOtpauthUri ⟨"otpauth://totp/".data ++ label⟩ =
        some { type := "otpauth", format := "TOTP", name := "", issuer := ⟨label⟩,
               secret := "", algorithm := "SHA1", digits := 6, period := 30, counter := 0,
               original_text := ⟨"otpauth://totp/".data ++ label⟩ }) ∧
    (∀ s1 s2 : List Char, s1 ≠ [] →
      (∀ ch ∈ s1, ch ≠ '/' ∧ ch ≠ '?' ∧ ch ≠ '#' ∧ ch ≠ '\t' ∧ ch ≠ '\r' ∧ ch ≠ '\n') →
      (∀ ch ∈ s2, ch ≠ '/' ∧ ch ≠ '?' ∧ ch ≠ '#' ∧ ch ≠ '\t' ∧ ch ≠ '\r' ∧ ch ≠ '\n') →
      decodeOtpauthUri ⟨"otpauth://totp/".data ++ (s1 ++ '/' :: s2)⟩ =
        some { type := "otpauth", format := "TOTP", name := ⟨s2⟩, issuer := ⟨s1⟩,
               secret := "", algorithm := "SHA1", digits := 6, period := 30, counter := 0,
               original_text := ⟨"otpauth://totp/".data ++ (s1 ++ '/' :: s2)⟩ }) := by
  constructor
  · intro label hlab
    have h7 : '?' ∉ label := fun hm => (hlab _ hm).2.1 rfl
    have h3 : '#' ∉ label := fun hm => (hlab _ hm).2.2.1 rfl
    have hu : ∀ ch ∈ label, ch ≠ '\t' ∧ ch ≠ '\r' ∧ ch ≠ '\n' := fun ch hm =>
      ⟨(hlab ch hm).2.2.2.1, (hlab ch hm).2.2.2.2.1, (hlab ch hm).2.2.2.2.2⟩
    have hsl : ∀ ch ∈ label, ch ≠ '/' := fun ch hm => (hlab ch hm).1
    have hdrop : (String.mk ("otpauth://totp/".data ++ label)).data.drop 10 =
        't' :: 'o' :: 't' :: 'p' :: '/' :: label := rfl
    simp only [decodeOtpauthUri, hdrop, urlparse_totp label h7 h3 hu,
      path_parts_single label hsl, List.getD_cons_succ, List.getD_nil,
      (by decide : pyInt "6" = some 6), (by decide : pyInt "30" = some 30),
      (by decide : pyInt "0" = some 0), parse_qsl, splitSep, List.filterMap,
      getFirst, List.find?,
      (by decide : ({ data := List.map Char.toUpper ['t', 'o', 't', 'p'] } : String) = "TOTP"),
      (by decide : ({ data := ([] : List Char) } : String) = "")]
  · intro s1 s2 h1ne hs1 hs2
    have h7 : '?' ∉ s1 ++ '/' :: s2 := by
      intro hm
      rcases List.mem_append.mp hm with hm1 | hm2
      · exact (hs1 _ hm1).2.1 rfl
      · rcases List.mem_cons.mp hm2 with he | hm3
        · exact absurd he (by decide)
        · exact (hs2 _ hm3).2.1 rfl
    have h3 : '#' ∉ s1 ++ '/' :: s2 := by
      intro hm
      rcases List.mem_append.mp hm with hm1 | hm2
      · exact (hs1 _ hm1).2.2.1 rfl
      · rcases List.mem_cons.mp hm2 with he | hm3
        · exact absurd he (by decide)
        · exact (hs2 _ hm3).2.2.1 rfl
    have hu : ∀ ch ∈ s1 ++ '/' :: s2, ch ≠ '\t' ∧ ch ≠ '\r' ∧ ch ≠ '\n' := by
      intro ch hm
      rcases List.mem_append.mp hm with hm1 | hm2
      · exact ⟨(hs1 _ hm1).2.2.2.1, (hs1 _ hm1).2.2.2.2.1, (hs1 _ hm1).2.2.2.2.2⟩
      · rcases List.mem_cons.mp hm2 with he | hm3
        · subst he; exact ⟨by decide, by decide, by decide⟩
        · exact ⟨(hs2 _ hm3).2.2.2.1, (hs2 _ hm3).2.2.2.2.1, (hs2 _ hm3).2.2.2.2.2⟩
    have hdrop : (String.mk ("otpauth://totp/".data ++ (s1 ++ '/' :: s2))).data.drop 10 =
        't' :: 'o' :: 't' :: 'p' :: '/' :: (s1 ++ '/' :: s2) := rfl
    simp only [decodeOtpauthUri, hdrop, urlparse_totp (s1 ++ '/' :: s2) h7 h3 hu,
      path_parts_pair s1 s2 h1ne (fun ch hm => (hs1 ch hm).1) (fun ch hm => (hs2 ch hm).1),
      List.getD_cons_succ, List.getD_cons_zero,
      (by decide : pyInt "6" = some 6), (by decide : pyInt "30" = some 30),
      (by decide : pyInt "0" = some 0), parse_qsl, splitSep, List.filterMap,
      getFirst, List.find?,
      (by decide : ({ data := List.map Char.toUpper ['t', 'o', 't', 'p'] } : String) = "TOTP"),
      (by decide : ({ data := ([] : List Char) } : String) = "")]

theorem c2_label_split_witness :
    ((∀ ch ∈ ("alice".data : List Char), ch ≠ '/' ∧ ch ≠ '?' ∧ ch ≠ '#' ∧ ch ≠ '\t' ∧ ch ≠ '\r' ∧ ch ≠ '\n') ∧
      decodeOtpauthUri ⟨"otpauth://totp/".data ++ "alice".data⟩ =
        some { type := "otpauth", format := "TOTP", name := "", issuer := ⟨"alice".data⟩,
               secret := "", algorithm := "SHA1", digits := 6, period := 30, counter := 0,
               original_text := ⟨"otpauth://totp/".data ++ "alice".data⟩ }) ∧
    (("Ex".data : List Char) ≠ [] ∧
      decodeOtpauthUri ⟨"otpauth://totp/".data ++ ("Ex".data ++ '/' :: "al".data)⟩ =
        some { type := "otpauth", format := "TOTP", name := ⟨"al".data⟩,
               issuer := ⟨"Ex".data⟩, secret := "", algorithm := "SHA1", digits := 6,
               period := 30, counter := 0,
               original_text := ⟨"otpauth://totp/".data ++ ("Ex".data ++ '/' :: "al".data)⟩ }) :=
  ⟨⟨by decide, c2_label_split.1 "alice".data (by decide)⟩,
   ⟨by decide, c2_label_split.2 "Ex".data "al".data (by decide) (by decide) (by decide)⟩⟩

theorem not_mem_append_of {α : Type} {c : α} {l1 l2 : List α} (h1 : c ∉ l1)
    (h2 : c ∉ l2) : c ∉ l1 ++ l2 :=
  fun hm => (List.mem_append.mp hm).elim h1 h2

theorem not_mem_cons_of {α : Type} {c x : α} {l : List α} (h1 : c ≠ x) (h2 : c ∉ l) :
    c ∉ x :: l :=
  fun hm => (List.mem_cons.mp hm).elim h1 h2

/-- C5 as stated is false: with the query repeating the secret key, the
decoder's record carries the first occurrence, not the last. -/
theorem c5_counterexample :
    (decodeOtpauthUri "otpauth://totp/a?secret=AAA&secret=BBB").map (fun r => r.secret) =
      some "AAA" ∧ ("AAA" : String) ≠ "BBB" := by decide

/-- C5 amended: when a key among secret, algorithm, digits, period,
counter is repeated in the query string, the record uses the first
occurrence of that key (parse_qs collects all values in order and the
decoder indexes [0]); stated for plain values free of the query
metacharacters and of the tab/CR/LF bytes urlsplit strips. -/
theorem c5_first_occurrence (v1 v2 : List Char) (hv1ne : v1 ≠ []) (hv2ne : v2 ≠ [])
    (hv1 : ∀ ch ∈ v1, ch ≠ '&' ∧ ch ≠ '=' ∧ ch ≠ '#' ∧ ch ≠ '%' ∧ ch ≠ '+' ∧ ch ≠ '\t' ∧ ch ≠ '\r' ∧ ch ≠ '\n')
    (hv2 : ∀ ch ∈ v2, ch ≠ '&' ∧ ch ≠ '=' ∧ ch ≠ '#' ∧ ch ≠ '%' ∧ ch ≠ '+' ∧ ch ≠ '\t' ∧ ch ≠ '\r' ∧ ch ≠ '\n') :
    decodeOtpauthUri ⟨"otpauth://totp/a?".data ++
        (("secret=".data ++ v1) ++ '&' :: (("secret=".data ++ v2) ++ '&' ::
          "algorithm=SHA256&algorithm=SHA512&digits=7&digits=9&period=45&period=77&counter=3&counter=8".data))⟩ =
      some { type := "otpauth", format := "TOTP", name := "", issuer := "a",
             secret := ⟨v1⟩, algorithm := "SHA256", digits := 7, period := 45, counter := 3,
             original_text := ⟨"otpauth://totp/a?".data ++
               (("secret=".data ++ v1) ++ '&' :: (("secret=".data ++ v2) ++ '&' ::
                 "algorithm=SHA256&algorithm=SHA512&digits=7&digits=9&period=45&period=77&counter=3&counter=8".data))⟩ } := by
  have hv1amp : '&' ∉ v1 := fun hm => (hv1 _ hm).1 rfl
  have hv2amp : '&' ∉ v2 := fun hm => (hv2 _ hm).1 rfl
  have hv1pct : '%' ∉ v1 := fun hm => (hv1 _ hm).2.2.2.1 rfl
  have hv2pct : '%' ∉ v2 := fun hm => (hv2 _ hm).2.2.2.1 rfl
  have hv1plus : '+' ∉ v1 := fun hm => (hv1 _ hm).2.2.2.2.1 rfl
  have hv2plus : '+' ∉ v2 := fun hm => (hv2 _ hm).2.2.2.2.1 rfl
  have hv1hash : '#' ∉ v1 := fun hm => (hv1 _ hm).2.2.1 rfl
  have hv2hash : '#' ∉ v2 := fun hm => (hv2 _ hm).2.2.1 rfl
  have hv1u : ∀ ch ∈ v1, ch ≠ '\t' ∧ ch ≠ '\r' ∧ ch ≠ '\n' := fun ch hm =>
    ⟨(hv1 ch hm).2.2.2.2.2.1, (hv1 ch hm).2.2.2.2.2.2.1, (hv1 ch hm).2.2.2.2.2.2.2⟩
  have hv2u : ∀ ch ∈ v2, ch ≠ '\t' ∧ ch ≠ '\r' ∧ ch ≠ '\n' := fun ch hm =>
    ⟨(hv2 ch hm).2.2.2.2.2.1, (hv2 ch hm).2.2.2.2.2.2.1, (hv2 ch hm).2.2.2.2.2.2.2⟩
  have hq3 : '#' ∉ (("secret=".data ++ v1) ++ '&' :: (("secret=".data ++ v2) ++ '&' ::
      "algorithm=SHA256&algorithm=SHA512&digits=7&digits=9&period=45&period=77&counter=3&counter=8".data)) :=
    not_mem_append_of (not_mem_append_of (by decide) hv1hash)
      (not_mem_cons_of (by decide)
        (not_mem_append_of (not_mem_append_of (by decide) hv2hash)
          (not_mem_cons_of (by decide) (by decide))))
  have hsecU : ∀ c ∈ ("secret=".data : List Char), c ≠ '\t' ∧ c ≠ '\r' ∧ c ≠ '\n' := by
    decide
  have htailU : ∀ c ∈ ("algorithm=SHA256&algorithm=SHA512&digits=7&digits=9&period=45&period=77&counter=3&counter=8".data : List Char),
      c ≠ '\t' ∧ c ≠ '\r' ∧ c ≠ '\n' := by decide
  have hqU : ∀ ch ∈ (("secret=".data ++ v1) ++ '&' :: (("secret=".data ++ v2) ++ '&' ::
      "algorithm=SHA256&algorithm=SHA512&digits=7&digits=9&period=45&period=77&counter=3&counter=8".data)),
      ch ≠ '\t' ∧ ch ≠ '\r' ∧ ch ≠ '\n' := by
    intro ch hm
    rcases List.mem_append.mp hm with hm1 | hm2
    · rcases List.mem_append.mp hm1 with hma | hmb
      · exact hsecU ch hma
      · exact hv1u ch hmb
    · rcases List.mem_cons.mp hm2 with he | hm3
      · subst he; exact ⟨by decide, by decide, by decide⟩
      · rcases List.mem_append.mp hm3 with hm4 | hm5
        · rcases List.mem_append.mp hm4 with hma | hmb
          · exact hsecU ch hma
          · exact hv2u ch hmb
        · rcases List.mem_cons.mp hm5 with he2 | hm6
          · subst he2; exact ⟨by decide, by decide, by decide⟩
          · exact htailU ch hm6
  have hdrop : (String.mk ("otpauth://totp/a?".data ++
      (("secret=".data ++ v1) ++ '&' :: (("secret=".data ++ v2) ++ '&' ::
        "algorithm=SHA256&algorithm=SHA512&digits=7&digits=9&period=45&period=77&counter=3&counter=8".data)))).data.drop 10 =
      't' :: 'o' :: 't' :: 'p' :: '/' :: (['a'] ++ '?' ::
        (("secret=".data ++ v1) ++ '&' :: (("secret=".data ++ v2) ++ '&' ::
          "algorithm=SHA256&algorithm=SHA512&digits=7&digits=9&period=45&period=77&counter=3&counter=8".data))) := rfl
  have hsplit : splitSep '&' (("secret=".data ++ v1) ++ '&' :: (("secret=".data ++ v2) ++ '&' ::
      "algorithm=SHA256&algorithm=SHA512&digits=7&digits=9&period=45&period=77&counter=3&counter=8".data)) =
      ("secret=".data ++ v1) :: ("secret=".data ++ v2) ::
        splitSep '&' "algorithm=SHA256&algorithm=SHA512&digits=7&digits=9&period=45&period=77&counter=3&counter=8".data := by
    rw [splitSep_append _ (not_mem_append_of (by decide) hv1amp),
      splitSep_append _ (not_mem_append_of (by decide) hv2amp)]
  have hsf1 : splitFirst '=' ("secret=".data ++ v1) = some ("secret".data, v1) := by
    rw [show ("secret=".data ++ v1 : List Char) = "secret".data ++ '=' :: v1 from rfl]
    exact splitFirst_append v1 (by decide)
  have hsf2 : splitFirst '=' ("secret=".data ++ v2) = some ("secret".data, v2) := by
    rw [show ("secret=".data ++ v2 : List Char) = "secret".data ++ '=' :: v2 from rfl]
    exact splitFirst_append v2 (by decide)
  have hne1 : ¬("secret=".data ++ v1 : List Char) = [] :=
    fun h => absurd (List.append_eq_nil.mp h).1 (by decide)
  have hne2 : ¬("secret=".data ++ v2 : List Char) = [] :=
    fun h => absurd (List.append_eq_nil.mp h).1 (by decide)
  have hu1 : unquotePlus v1 = v1 := unquotePlus_id hv1pct hv1plus
  have hu2 : unquotePlus v2 = v2 := unquotePlus_id hv2pct hv2plus
  have hqsl : parse_qsl (("secret=".data ++ v1) ++ '&' :: (("secret=".data ++ v2) ++ '&' ::
      "algorithm=SHA256&algorithm=SHA512&digits=7&digits=9&period=45&period=77&counter=3&counter=8".data)) =
      ("secret", (⟨v1⟩ : String)) :: ("secret", (⟨v2⟩ : String)) ::
        parse_qsl "algorithm=SHA256&algorithm=SHA512&digits=7&digits=9&period=45&period=77&counter=3&counter=8".data := by
    unfold parse_qsl
    rw [hsplit, List.filterMap_cons, List.filterMap_cons]
    simp only [hsf1, hsf2, if_neg hne1, if_neg hne2, if_neg hv1ne, if_neg hv2ne, hu1, hu2,
      (by decide : unquotePlus "secret".data = "secret".data),
      (by decide : ({ data := "secret".data } : String) = "secret")]
  have hqslC : parse_qsl "algorithm=SHA256&algorithm=SHA512&digits=7&digits=9&period=45&period=77&counter=3&counter=8".data =
      [("algorithm", "SHA256"), ("algorithm", "SHA512"), ("digits", "7"), ("digits", "9"),
       ("period", "45"), ("period", "77"), ("counter", "3"), ("counter", "8")] := by decide
  simp only [decodeOtpauthUri, hdrop,
    urlparse_totp_q ['a'] _ (by decide) (by decide) (by decide) hq3 hqU,
    path_parts_single ['a'] (by decide), List.getD_cons_succ, List.getD_nil,
    hqsl, hqslC,
    getFirst_cons_eq (by decide : (("secret" : String) == "secret") = true),
    getFirst_cons_ne (by decide : (("secret" : String) == "algorithm") = false),
    getFirst_cons_ne (by decide : (("secret" : String) == "digits") = false),
    getFirst_cons_ne (by decide : (("secret" : String) == "period") = false),
    getFirst_cons_ne (by decide : (("secret" : String) == "counter") = false),
    (by decide : getFirst [("algorithm", "SHA256"), ("algorithm", "SHA512"), ("digits", "7"),
      ("digits", "9"), ("period", "45"), ("period", "77"), ("counter", "3"),
      ("counter", "8")] "algorithm" "SHA1" = "SHA256"),
    (by decide : getFirst [("algorithm", "SHA256"), ("algorithm", "SHA512"), ("digits", "7"),
      ("digits", "9"), ("period", "45"), ("period", "77"), ("counter", "3"),
      ("counter", "8")] "digits" "6" = "7"),
    (by decide : getFirst [("algorithm", "SHA256"), ("algorithm", "SHA512"), ("digits", "7"),
      ("digits", "9"), ("period", "45"), ("period", "77"), ("counter", "3"),
      ("counter", "8")] "period" "30" = "45"),
    (by decide : getFirst [("algorithm", "SHA256"), ("algorithm", "SHA512"), ("digits", "7"),
      ("digits", "9"), ("period", "45"), ("period", "77"), ("counter", "3"),
      ("counter", "8")] "counter" "0" = "3"),
    (by decide : pyInt "7" = some 7), (by decide : pyInt "45" = some 45),
    (by decide : pyInt "3" = some 3),
    (by decide : ({ data := List.map Char.toUpper ['t', 'o', 't', 'p'] } : String) = "TOTP"),
    (by decide : ({ data := ([] : List Char) } : String) = ""),
    (by decide : ({ data := ['a'] } : String) = "a")]

theorem c5_first_occurrence_witness :
    ("AAA".data : List Char) ≠ [] ∧ ("BBB".data : List Char) ≠ [] ∧
    (∀ ch ∈ ("AAA".data : List Char), ch ≠ '&' ∧ ch ≠ '=' ∧ ch ≠ '#' ∧ ch ≠ '%' ∧ ch ≠ '+' ∧ ch ≠ '\t' ∧ ch ≠ '\r' ∧ ch ≠ '\n') ∧
    (∀ ch ∈ ("BBB".data : List Char), ch ≠ '&' ∧ ch ≠ '=' ∧ ch ≠ '#' ∧ ch ≠ '%' ∧ ch ≠ '+' ∧ ch ≠ '\t' ∧ ch ≠ '\r' ∧ ch ≠ '\n') ∧
    decodeOtpauthUri ⟨"otpauth://totp/a?".data ++
        (("secret=".data ++ "AAA".data) ++ '&' :: (("secret=".data ++ "BBB".data) ++ '&' ::
          "algorithm=SHA256&algorithm=SHA512&digits=7&digits=9&period=45&period=77&counter=3&counter=8".data))⟩ =
      some { type := "otpauth", format := "TOTP", name := "", issuer := "a",
             secret := ⟨"AAA".data⟩, algorithm := "SHA256", digits := 7, period := 45,
             counter := 3,
             original_text := ⟨"otpauth://totp/a?".data ++
               (("secret=".data ++ "AAA".data) ++ '&' :: (("secret=".data ++ "BBB".data) ++ '&' ::
                 "algorithm=SHA256&algorithm=SHA512&digits=7&digits=9&period=45&period=77&counter=3&counter=8".data))⟩ } :=
  ⟨by decide, by decide, by decide, by decide,
   c5_first_occurrence "AAA".data "BBB".data (by decide) (by decide) (by decide) (by decide)⟩
